import Mathlib

/-!
# Verification of the BuildStream core against its specification

This file gives a shallow embedding, in Lean 4, of the parts of the
BuildStream source tree that the frozen claims refer to:

* the artifact cache quota computation and the `clean()` eviction loop
  (`buildstream/_artifactcache/artifactcache.py`),
* the persisted cache-size record (`_read_cache_size` / `get_cache_size`),
* the CAS server `ByteStream.Write` handler
  (`buildstream/_artifactcache/casserver.py`),
* the loader's circular-dependency check and dependency sort
  (`buildstream/_loader/loader.py`),
* the CAS-backed virtual directory layer
  (`buildstream/storage/_casbaseddirectory.py`),
* the build queue's cached-failure fast path
  (`buildstream/_scheduler/queues/buildqueue.py`).

Modelling conventions:

* Python integers are `Int`/`Nat`; byte sizes that are mixed with float
  arithmetic in the source (quota headroom `2e9`, `quota / 2`) are
  modelled as exact rationals `ℚ` (all values arising in the source are
  dyadic and exactly representable).
* SHA-256 digests are modelled injectively: the "hash" of a serialized
  directory is the canonical serialized form itself, so two digests are
  byte-identical exactly when the serialized contents agree.  This is
  the standard collision-free model of a cryptographic hash.
* Fallible Python code (raise / assert) becomes `Except`.
* Unbounded recursion over graphs or symlink chains is modelled with an
  explicit fuel parameter; fuel-sufficiency lemmas discharge it where
  theorems need it.
-/

/-! ## Common error types -/

/-- Reasons attached to `LoadError` in `buildstream/_exceptions.py`
(only the ones the claims mention). -/
inductive LoadErrorReason where
  | invalidData
  | circularDependency
  deriving DecidableEq, Repr

/-- `LoadError(reason, message)` from `buildstream/_exceptions.py`. -/
structure LoadError where
  reason : LoadErrorReason
  message : String
  deriving DecidableEq, Repr

/-- `ArtifactError(message, detail=..., reason=...)` from
`buildstream/_exceptions.py`.  `detail` and `reason` are optional. -/
structure ArtifactError where
  message : String
  detail : Option String := none
  reason : Option String := none
  deriving DecidableEq, Repr

namespace Quota

/-!
## C2: `ArtifactCache._calculate_cache_quota`
(`buildstream/_artifactcache/artifactcache.py`, lines 858-921)

The size-expression parser `utils._parse_size` lives in
`buildstream/utils.py`, which is not part of the sources; the embedding
therefore starts from the *parsed* quota (`Option ℚ`, `none` being the
YAML value `infinity`, i.e. Python `None`), exactly the point at which
the claim's statement begins.  The pretty-printed byte sizes interpolated
into the error messages come from `utils._pretty_size` (also outside the
sources); the embedded messages keep the fixed text and abstract the
interpolated sizes.
-/

/-- Outcome of `_calculate_cache_quota`: on success the method stores
`self._cache_quota` and `self._cache_lower_threshold`. -/
structure QuotaResult where
  cacheQuota : ℚ
  cacheLowerThreshold : ℚ
  deriving DecidableEq, Repr

/-- Shallow embedding of `ArtifactCache._calculate_cache_quota`.

Arguments mirror the quantities the Python method reads:
`headroom` (0 under `BST_TEST_SUITE`, `2e9` otherwise), the parsed
quota `parsedQuota` (`none` = "infinity"), the volume statistics
`availableSpace` and `totalSize` from `os.statvfs`, and
`cacheSize = self.get_cache_size()`. -/
def calculateCacheQuota (headroom : ℚ) (parsedQuota : Option ℚ)
    (availableSpace totalSize cacheSize : ℚ) : Except LoadError QuotaResult :=
  -- if cache_quota is None:  # Infinity, set to max system storage
  --     cache_quota = cache_size + available_space
  let cacheQuota : ℚ :=
    match parsedQuota with
    | none => cacheSize + availableSpace
    | some q => q
  -- if cache_quota < headroom:  # Check minimum
  if cacheQuota < headroom then
    .error { reason := .invalidData,
             message := "Invalid cache quota: BuildStream requires a minimum cache quota of 2G." }
  -- elif cache_quota > cache_size + available_space:  # Check maximum
  else if cacheQuota > cacheSize + availableSpace then
    .error { reason := .invalidData,
             message := "Your system does not have enough available space to support the cache quota specified." }
  else
    -- self._cache_quota = cache_quota - headroom
    -- self._cache_lower_threshold = self._cache_quota / 2
    .ok { cacheQuota := cacheQuota - headroom,
          cacheLowerThreshold := (cacheQuota - headroom) / 2 }

-- unused: totalSize only feeds the pretty-printed message in the source
theorem calculateCacheQuota_totalSize_irrelevant (h : ℚ) (q : Option ℚ)
    (a t t' c : ℚ) :
    calculateCacheQuota h q a t c = calculateCacheQuota h q a t' c := rfl

end Quota

namespace CacheSize

/-!
## C10: `ArtifactCache._read_cache_size` and `ArtifactCache.get_cache_size`
(`buildstream/_artifactcache/artifactcache.py`, lines 302-324 and 826-849)
-/

/-- One character of a Python `int()` literal: a decimal digit. -/
def isDigit (c : Char) : Bool := '0' ≤ c && c ≤ '9'

/-- Digits with optional single underscores between them, as accepted by
Python 3.6+ `int()`: underscores may appear only between digits. -/
def digitsRun : List Char → Bool
  | [] => false
  | [c] => isDigit c
  | c :: c' :: rest =>
    if isDigit c then digitsRun (c' :: rest)
    else if c = '_' then isDigit c' && digitsRun (c' :: rest)
    else false

/-- Numeric value of a digit/underscore run (underscores skipped). -/
def digitsVal : List Char → ℤ → ℤ
  | [], acc => acc
  | c :: rest, acc =>
    if c = '_' then digitsVal rest acc
    else digitsVal rest (acc * 10 + (c.toNat - '0'.toNat : ℤ))

/-- Python whitespace stripped by `int(str)`. -/
def isSpace (c : Char) : Bool :=
  c = ' ' || c = '\t' || c = '\n' || c = '\x0d' || c = '\x0b' || c = '\x0c'

/-- Model of Python `int(s)`: strip whitespace, optional sign, then a
digit run (underscores allowed between digits); anything else raises
`ValueError` (`none` here). -/
def pyInt (s : String) : Option ℤ :=
  let cs := (s.toList.dropWhile isSpace).reverse.dropWhile isSpace |>.reverse
  match cs with
  | '+' :: rest => if digitsRun rest then some (digitsVal rest 0) else none
  | '-' :: rest => if digitsRun rest then some (-(digitsVal rest 0)) else none
  | rest => if digitsRun rest then some (digitsVal rest 0) else none

/-- The state `ArtifactCache.get_cache_size` reads:
`memSize` is `self._cache_size`, `sizeFile` is the contents of the
`cache_size` file when it exists (`none` when `os.path.exists` is
false), and `casSize` is what `self.cas.calculate_cache_size()` would
return.  `sizeFilePath` is the path interpolated into the error. -/
structure State where
  memSize : Option ℤ
  sizeFile : Option String
  casSize : ℤ
  sizeFilePath : String
  deriving DecidableEq, Repr

/-- Shallow embedding of `ArtifactCache._read_cache_size`. -/
def readCacheSize (st : State) : Except ArtifactError (Option ℤ) :=
  match st.sizeFile with
  | none => .ok none
  | some contents =>
    match pyInt contents with
    | some n => .ok (some n)
    | none =>
      .error { message := "Size \x27" ++ contents ++ "\x27 parsed from \x27" ++
                          st.sizeFilePath ++ "\x27 was not an integer" }

/-- Shallow embedding of `ArtifactCache.get_cache_size` (the returned
integer; the source also caches it in `self._cache_size`). -/
def getCacheSize (st : State) : Except ArtifactError ℤ :=
  match st.memSize with
  | some n => .ok n
  | none =>
    match readCacheSize st with
    | .error e => .error e
    | .ok (some stored) => .ok stored
    | .ok none => .ok st.casSize   -- self.compute_cache_size()

end CacheSize

namespace Clean

/-!
## C1 and C6: `ArtifactCache.clean`
(`buildstream/_artifactcache/artifactcache.py`, lines 224-273; the
`buildstream/_artifactcache.py` variant, lines 216-289, runs the same
loop and differs only in progress messages and in the wording of the
abort detail.)
-/

/-- The strong and weak cache keys of one required element, as returned
by `element._get_cache_key(strength=...)`; either may be `None` when the
key is not resolved yet. -/
structure ElementKeys where
  strong : Option String
  weak : Option String
  deriving DecidableEq, Repr

/-- Split a character list at every occurrence of `sep`, keeping empty
groups (the behaviour of Python `str.split(sep)`). -/
def splitOnChar (sep : Char) : List Char → List (List Char)
  | [] => [[]]
  | c :: rest =>
    let r := splitOnChar sep rest
    if c = sep then [] :: r
    else
      match r with
      | [] => [[c]]
      | g :: gs => (c :: g) :: gs

/-- `to_remove.rpartition('/')[2]`: the part of the ref after the last
slash (the whole ref when there is no slash). -/
def refKey (ref : String) : String :=
  String.mk ((splitOnChar '/' ref.toList).getLastD [])

/-- The cache state `clean()` operates on.  `artifacts` is
`self.list_artifacts()` in LRU order; `requiredElements` is
`self._required_elements`; `cacheSize` is the size freshly recomputed by
`self.compute_cache_size()`; `removeSize r` is the number of bytes
`self.remove(r)` reports freed; `configOrigin` is
`self.context.config_origin` and `xdgConfigHome` the environment's
`XDG_CONFIG_HOME`. -/
structure State where
  artifacts : List String
  requiredElements : List ElementKeys
  cacheSize : ℤ
  cacheQuota : ℚ
  cacheLowerThreshold : ℚ
  removeSize : String → ℤ
  configOrigin : Option String
  xdgConfigHome : String

/-- The required-artifacts set built at the top of `clean()`:
strong and weak keys of every required element (`None`s included, as in
the Python set). -/
def requiredArtifacts (st : State) : List (Option String) :=
  st.requiredElements.flatMap fun e => [e.strong, e.weak]

/-- The abort detail built in the `IndexError` branch of `clean()`. -/
def cacheTooFullDetail (st : State) : String :=
  let defaultConf := st.xdgConfigHome ++ "/buildstream.conf"
  "There is not enough space to build the given element.\n" ++
  "Please increase the cache-quota in " ++
  (st.configOrigin.getD defaultConf) ++ "."

/-- The `while` loop of `clean()`.  `arts` is the remaining LRU list,
`size` the current `self._cache_size`, and `removed` accumulates the
refs passed to `self.remove` (for the statement of C1).  Returns the
refs removed and either the final cache size or the raised
`ArtifactError`. -/
def cleanLoop (st : State) :
    List String → ℤ → List String → List String × Except ArtifactError ℤ
  | [], size, removed =>
    if (size : ℚ) ≥ st.cacheLowerThreshold then
      -- except IndexError: abort if the quota is still exceeded
      if (size : ℚ) > st.cacheQuota then
        (removed, .error { message := "Cache too full. Aborting.",
                           detail := some (cacheTooFullDetail st),
                           reason := some "cache-too-full" })
      else
        -- break, then `return self.get_cache_size()`
        (removed, .ok size)
    else
      (removed, .ok size)
  | toRemove :: rest, size, removed =>
    if (size : ℚ) ≥ st.cacheLowerThreshold then
      if some (refKey toRemove) ∈ requiredArtifacts st then
        -- required: skip without removing
        cleanLoop st rest size removed
      else
        -- size = self.remove(to_remove); set_cache_size(size - removed)
        cleanLoop st rest (size - st.removeSize toRemove)
          (removed ++ [toRemove])
    else
      (removed, .ok size)

/-- Shallow embedding of `ArtifactCache.clean`: the refs it removes and
its result. -/
def clean (st : State) : List String × Except ArtifactError ℤ :=
  cleanLoop st st.artifacts st.cacheSize []

theorem cleanLoop_removed_mono (st : State) :
    ∀ arts size removed, ∃ extra,
      (cleanLoop st arts size removed).1 = removed ++ extra := by
  intro arts
  induction arts with
  | nil =>
    intro size removed
    by_cases h1 : (size : ℚ) ≥ st.cacheLowerThreshold <;>
      by_cases h2 : (size : ℚ) > st.cacheQuota <;>
      exact ⟨[], by simp [cleanLoop, h1, h2]⟩
  | cons a rest ih =>
    intro size removed
    by_cases h1 : (size : ℚ) ≥ st.cacheLowerThreshold
    · by_cases h2 : some (refKey a) ∈ requiredArtifacts st
      · obtain ⟨extra, hx⟩ := ih size removed
        exact ⟨extra, by simpa [cleanLoop, h1, h2] using hx⟩
      · obtain ⟨extra, hx⟩ := ih (size - st.removeSize a) (removed ++ [a])
        refine ⟨a :: extra, ?_⟩
        simp only [cleanLoop, h1, if_true, h2, if_false, ite_true, ite_false]
        simpa using hx
    · exact ⟨[], by simp [cleanLoop, h1]⟩

theorem cleanLoop_removed_not_required (st : State) :
    ∀ arts size removed,
      (∀ r ∈ removed, some (refKey r) ∉ requiredArtifacts st) →
      ∀ r ∈ (cleanLoop st arts size removed).1,
        some (refKey r) ∉ requiredArtifacts st := by
  intro arts
  induction arts with
  | nil =>
    intro size removed hinv r hr
    by_cases h1 : (size : ℚ) ≥ st.cacheLowerThreshold <;>
      by_cases h2 : (size : ℚ) > st.cacheQuota <;>
      simp only [cleanLoop, h1, h2, if_true, if_false, ite_true, ite_false] at hr <;>
      exact hinv r hr
  | cons a rest ih =>
    intro size removed hinv r hr
    by_cases h1 : (size : ℚ) ≥ st.cacheLowerThreshold
    · by_cases h2 : some (refKey a) ∈ requiredArtifacts st
      · simp only [cleanLoop, h1, h2, if_true, ite_true] at hr
        exact ih size removed hinv r hr
      · simp only [cleanLoop, h1, h2, if_true, if_false, ite_true, ite_false] at hr
        refine ih (size - st.removeSize a) (removed ++ [a]) ?_ r hr
        intro r' hr'
        rcases List.mem_append.mp hr' with h | h
        · exact hinv r' h
        · simp only [List.mem_singleton] at h
          subst h; exact h2
    · simp only [cleanLoop, h1, if_false, ite_false] at hr
      exact hinv r hr

end Clean

namespace Clean

/-- Helper: any error produced by `cleanLoop` is the "Cache too full"
abort, with its reason token and detail message. -/
theorem cleanLoop_error_spec (st : State) :
    ∀ arts size removed e,
      (cleanLoop st arts size removed).2 = .error e →
      e = { message := "Cache too full. Aborting.",
            detail := some (cacheTooFullDetail st),
            reason := some "cache-too-full" } := by
  intro arts
  induction arts with
  | nil =>
    intro size removed e he
    by_cases h1 : (size : ℚ) ≥ st.cacheLowerThreshold <;>
      by_cases h2 : (size : ℚ) > st.cacheQuota <;>
      simp only [cleanLoop, h1, h2, if_true, if_false, ite_true, ite_false] at he <;>
      first
        | exact (Except.error.injEq _ _ ▸ he).symm ▸ rfl
        | cases he
  | cons a rest ih =>
    intro size removed e he
    by_cases h1 : (size : ℚ) ≥ st.cacheLowerThreshold
    · by_cases h2 : some (refKey a) ∈ requiredArtifacts st
      · simp only [cleanLoop, h1, h2, if_true, ite_true] at he
        exact ih _ _ _ he
      · simp only [cleanLoop, h1, h2, if_true, if_false, ite_true, ite_false] at he
        exact ih _ _ _ he
    · simp only [cleanLoop, h1, if_false, ite_false] at he
      cases he

/-- A concrete cache state used by the witnesses: one unrequired
artifact in the LRU list, a required element pinning the key "xyz". -/
def exampleState : State :=
  { artifacts := ["proj/elem/abc"]
    requiredElements := [{ strong := some "xyz", weak := some "wk" }]
    cacheSize := 10
    cacheQuota := 5
    cacheLowerThreshold := 0
    removeSize := fun _ => 10
    configOrigin := none
    xdgConfigHome := "/home/user/.config" }

/-- A concrete state whose LRU list is empty while the size exceeds the
quota: `clean()` must abort. -/
def exhaustedState : State :=
  { artifacts := []
    requiredElements := []
    cacheSize := 10
    cacheQuota := 5
    cacheLowerThreshold := 3
    removeSize := fun _ => 1
    configOrigin := some "/home/user/.config/buildstream.conf"
    xdgConfigHome := "/home/user/.config" }

end Clean

/-- C1: for every invocation of `ArtifactCache.clean()`, no ref whose
cache key (the trailing path component of the ref name) is the strong or
weak cache key of any element in the required set at cleanup time is
ever removed: `clean()` calls `remove()` only on refs whose key is not
in the required-artifacts set built from the pinned elements. -/
theorem clean_never_removes_required_ref (st : Clean.State) (r : String)
    (hr : r ∈ (Clean.clean st).1) :
    ∀ e ∈ st.requiredElements,
      e.strong ≠ some (Clean.refKey r) ∧ e.weak ≠ some (Clean.refKey r) := by
  have hnot : some (Clean.refKey r) ∉ Clean.requiredArtifacts st :=
    Clean.cleanLoop_removed_not_required st st.artifacts st.cacheSize []
      (by intro r' hr'; cases hr') r hr
  intro e he
  constructor
  · intro hs
    exact hnot (List.mem_flatMap.mpr ⟨e, he, by simp [hs]⟩)
  · intro hw
    exact hnot (List.mem_flatMap.mpr ⟨e, he, by simp [hw]⟩)

/-- Witness for C1: in `exampleState` the ref `proj/elem/abc` is
actually removed, and its key differs from both pinned keys. -/
theorem clean_never_removes_required_ref_witness :
    "proj/elem/abc" ∈ (Clean.clean Clean.exampleState).1 ∧
      ∀ e ∈ Clean.exampleState.requiredElements,
        e.strong ≠ some (Clean.refKey "proj/elem/abc") ∧
        e.weak ≠ some (Clean.refKey "proj/elem/abc") := by
  have hmem : "proj/elem/abc" ∈ (Clean.clean Clean.exampleState).1 := by decide
  exact ⟨hmem, clean_never_removes_required_ref Clean.exampleState _ hmem⟩

/-- C6: when `clean()` exhausts the LRU ref list while the cache size is
still at or above the lower threshold, it aborts with an
`ArtifactError` of reason `"cache-too-full"` (carrying the
user-actionable detail message) exactly when the cache size still
exceeds the quota; when the list is exhausted but the size no longer
exceeds the quota, it stops evicting and returns the current cache size
normally.  (Second conjunct: every error `clean()` can raise is this
abort.) -/
theorem clean_exhausted_abort :
    (∀ (st : Clean.State) (size : ℤ) (removed : List String),
      (size : ℚ) ≥ st.cacheLowerThreshold →
      Clean.cleanLoop st [] size removed =
        (removed,
          if (size : ℚ) > st.cacheQuota then
            .error { message := "Cache too full. Aborting.",
                     detail := some (Clean.cacheTooFullDetail st),
                     reason := some "cache-too-full" }
          else .ok size)) ∧
    (∀ (st : Clean.State) (e : ArtifactError),
      (Clean.clean st).2 = .error e →
      e.reason = some "cache-too-full" ∧
      e.detail = some (Clean.cacheTooFullDetail st)) := by
  constructor
  · intro st size removed h
    by_cases h2 : (size : ℚ) > st.cacheQuota <;>
      simp [Clean.cleanLoop, h, h2]
  · intro st e he
    have := Clean.cleanLoop_error_spec st st.artifacts st.cacheSize [] e he
    subst this
    exact ⟨rfl, rfl⟩

/-- Witness for C6: with the quota exceeded and an empty LRU list the
loop aborts with reason `"cache-too-full"`. -/
theorem clean_exhausted_abort_witness :
    Clean.cleanLoop Clean.exhaustedState [] 10 [] =
      ([], .error { message := "Cache too full. Aborting.",
                    detail := some (Clean.cacheTooFullDetail Clean.exhaustedState),
                    reason := some "cache-too-full" }) := by
  have h := clean_exhausted_abort.1 Clean.exhaustedState 10 [] (by norm_num [Clean.exhaustedState])
  simpa [Clean.exhaustedState] using h

/-- C2: the effective cache quota equals the configured quota minus the
headroom and the lower threshold is half the effective quota; a
configured quota of `None` is rewritten to current cache size plus
available disk space; the computation fails with a user-facing
`LoadError` (reason `INVALID_DATA`) when the parsed quota is smaller
than the headroom or larger than current size plus available space, and
succeeds at both boundary values. -/
theorem calculate_cache_quota_spec :
    (∀ (h q a t c : ℚ), h ≤ q → q ≤ c + a →
      Quota.calculateCacheQuota h (some q) a t c =
        .ok { cacheQuota := q - h, cacheLowerThreshold := (q - h) / 2 }) ∧
    (∀ (h a t c : ℚ),
      Quota.calculateCacheQuota h none a t c =
        Quota.calculateCacheQuota h (some (c + a)) a t c) ∧
    (∀ (h q a t c : ℚ), q < h →
      ∃ e, Quota.calculateCacheQuota h (some q) a t c = .error e ∧
        e.reason = .invalidData) ∧
    (∀ (h q a t c : ℚ), c + a < q →
      ∃ e, Quota.calculateCacheQuota h (some q) a t c = .error e ∧
        e.reason = .invalidData) ∧
    (∀ (h a t c : ℚ), h ≤ c + a →
      Quota.calculateCacheQuota h (some h) a t c =
        .ok { cacheQuota := 0, cacheLowerThreshold := 0 }) ∧
    (∀ (h a t c : ℚ), h ≤ c + a →
      Quota.calculateCacheQuota h (some (c + a)) a t c =
        .ok { cacheQuota := c + a - h,
              cacheLowerThreshold := (c + a - h) / 2 }) := by
  refine ⟨?_, ?_, ?_, ?_, ?_, ?_⟩
  · intro h q a t c h1 h2
    simp [Quota.calculateCacheQuota, not_lt.mpr h1, not_lt.mpr h2]
  · intro h a t c
    rfl
  · intro h q a t c hq
    exact ⟨{ reason := .invalidData,
             message := "Invalid cache quota: BuildStream requires a minimum cache quota of 2G." },
           by simp [Quota.calculateCacheQuota, hq], rfl⟩
  · intro h q a t c hq
    by_cases h1 : q < h
    · exact ⟨{ reason := .invalidData,
               message := "Invalid cache quota: BuildStream requires a minimum cache quota of 2G." },
             by simp [Quota.calculateCacheQuota, h1], rfl⟩
    · exact ⟨{ reason := .invalidData,
               message := "Your system does not have enough available space to support the cache quota specified." },
             by simp [Quota.calculateCacheQuota, h1, hq], rfl⟩
  · intro h a t c hc
    simp [Quota.calculateCacheQuota, not_lt.mpr hc]
  · intro h a t c hc
    simp [Quota.calculateCacheQuota, not_lt.mpr hc]

/-- Witness for C2: headroom 2, quota at the lower boundary (2), cache
size 1 and available space 5. -/
theorem calculate_cache_quota_spec_witness :
    Quota.calculateCacheQuota 2 (some 2) 5 99 1 =
      .ok { cacheQuota := 0, cacheLowerThreshold := 0 } :=
  calculate_cache_quota_spec.2.2.2.2.1 2 5 99 1 (by norm_num)

/-- C10: on the first call to `get_cache_size()` (no in-memory value),
if the persisted `cache_size` file exists but its contents do not parse
as an integer, the operation raises an `ArtifactError` saying the parsed
size was not an integer, rather than falling back to recomputing the
size; if the file does not exist, the size is computed from the object
store via `calculate_cache_size()`. -/
theorem get_cache_size_first_call :
    (∀ (st : CacheSize.State) (s : String),
      st.memSize = none → st.sizeFile = some s → CacheSize.pyInt s = none →
      CacheSize.getCacheSize st =
        .error { message := "Size \x27" ++ s ++ "\x27 parsed from \x27" ++
                            st.sizeFilePath ++ "\x27 was not an integer" }) ∧
    (∀ st : CacheSize.State,
      st.memSize = none → st.sizeFile = none →
      CacheSize.getCacheSize st = .ok st.casSize) := by
  constructor
  · intro st s hm hf hp
    simp [CacheSize.getCacheSize, CacheSize.readCacheSize, hm, hf, hp]
  · intro st hm hf
    simp [CacheSize.getCacheSize, CacheSize.readCacheSize, hm, hf]

/-- Witness for C10: the file contents `"12x3"` do not parse, so the
first call errors; with no file the CAS size 77 is returned. -/
theorem get_cache_size_first_call_witness :
    CacheSize.getCacheSize
        { memSize := none, sizeFile := some "12x3", casSize := 77,
          sizeFilePath := "/cache/cache_size" } =
      .error { message := "Size \x2712x3\x27 parsed from \x27/cache/cache_size\x27 was not an integer" } ∧
    CacheSize.getCacheSize
        { memSize := none, sizeFile := none, casSize := 77,
          sizeFilePath := "/cache/cache_size" } = .ok 77 :=
  ⟨get_cache_size_first_call.1 _ "12x3" rfl rfl (by decide),
   get_cache_size_first_call.2 _ rfl rfl⟩

namespace BuildQueue

/-!
## C9: `BuildQueue.enqueue`
(`buildstream/_scheduler/queues/buildqueue.py`, lines 42-68)

The `Element` methods consulted by `enqueue` (`_cached_failure`,
`_get_build_result`, `_get_build_log`) live in `buildstream/element.py`,
which is not part of the sources; their results are modelled as plain
record fields of the element.
-/

/-- The face an element shows to `BuildQueue.enqueue`:
`cachedFailure` is `element._cached_failure()`; `resultDesc` and
`resultDetail` are the description and detail parts of
`element._get_build_result()` (the success flag is discarded by
`enqueue`, which binds it to `_`); `buildLog` is
`element._get_build_log()`. -/
structure Element where
  id : ℕ
  cachedFailure : Bool
  resultDesc : String
  resultDetail : String
  buildLog : String
  deriving DecidableEq, Repr

/-- One synthetic failed-job entry: the `FAIL` message emitted with the
original description, detail and log path, together with the job
appended to `self._done_queue`, the element appended to
`self.failed_elements` and the `_job_complete_callback(job, False)`
call.  The action is never run for such an entry. -/
structure SyntheticFailure where
  element : ℕ
  description : String
  detail : String
  logfile : String
  deriving DecidableEq, Repr

/-- Shallow embedding of the `for element in elts` loop of
`BuildQueue.enqueue`.  Returns the list handed to `super().enqueue`
(`to_queue`), the updated `self._tried` set and the synthetic failure
entries emitted, in order. -/
def enqueueLoop (tried : List ℕ) :
    List Element → List Element × List ℕ × List SyntheticFailure
  | [] => ([], tried, [])
  | e :: rest =>
    if ¬ e.cachedFailure ∨ e.id ∈ tried then
      -- to_queue.append(element); continue
      (e :: (enqueueLoop tried rest).1, (enqueueLoop tried rest).2)
    else
      -- Bypass queue processing entirely the first time it's tried.
      ((enqueueLoop (e.id :: tried) rest).1,
       (enqueueLoop (e.id :: tried) rest).2.1,
       { element := e.id, description := e.resultDesc,
         detail := e.resultDetail, logfile := e.buildLog } ::
         (enqueueLoop (e.id :: tried) rest).2.2)

/-- Shallow embedding of `BuildQueue.enqueue` (the loop; the final
`super().enqueue(to_queue)` consumes the first component). -/
def enqueue (tried : List ℕ) (elts : List Element) :
    List Element × List ℕ × List SyntheticFailure :=
  enqueueLoop tried elts

theorem enqueueLoop_tried_mono (tried : List ℕ) :
    ∀ elts x, x ∈ tried → x ∈ (enqueueLoop tried elts).2.1 := by
  intro elts
  induction elts generalizing tried with
  | nil => intro x hx; exact hx
  | cons e rest ih =>
    intro x hx
    simp only [enqueueLoop]
    by_cases h : ¬ e.cachedFailure ∨ e.id ∈ tried
    · rw [if_pos h]; exact ih tried x hx
    · rw [if_neg h]; exact ih (e.id :: tried) x (List.mem_cons_of_mem _ hx)

end BuildQueue

namespace BuildQueue

theorem enqueueLoop_queue_subset (tried : List ℕ) :
    ∀ elts, ∀ x ∈ (enqueueLoop tried elts).1, x ∈ elts := by
  intro elts
  induction elts generalizing tried with
  | nil => intro x hx; cases hx
  | cons e rest ih =>
    intro x hx
    simp only [enqueueLoop] at hx
    by_cases h : ¬ e.cachedFailure ∨ e.id ∈ tried
    · rw [if_pos h] at hx
      rcases List.mem_cons.mp hx with hx | hx
      · exact hx ▸ List.mem_cons_self e rest
      · exact List.mem_cons_of_mem _ (ih tried x hx)
    · rw [if_neg h] at hx
      exact List.mem_cons_of_mem _ (ih (e.id :: tried) x hx)

theorem enqueueLoop_events_ids (tried : List ℕ) :
    ∀ elts, ∀ ev ∈ (enqueueLoop tried elts).2.2,
      ev.element ∈ elts.map Element.id := by
  intro elts
  induction elts generalizing tried with
  | nil => intro ev hev; cases hev
  | cons e rest ih =>
    intro ev hev
    simp only [enqueueLoop] at hev
    by_cases h : ¬ e.cachedFailure ∨ e.id ∈ tried
    · rw [if_pos h] at hev
      exact List.mem_cons_of_mem _ (ih tried ev hev)
    · rw [if_neg h] at hev
      rcases List.mem_cons.mp hev with hev | hev
      · simp [hev]
      · exact List.mem_cons_of_mem _ (ih (e.id :: tried) ev hev)

/-- First encounter of a cached-failure element: the synthetic entry
with the original result fields is emitted, the element is not queued,
and it is marked tried. -/
theorem enqueueLoop_cached_failure (tried : List ℕ) :
    ∀ elts (e : Element), (elts.map Element.id).Nodup → e ∈ elts →
      e.cachedFailure = true → e.id ∉ tried →
      { element := e.id, description := e.resultDesc,
        detail := e.resultDetail, logfile := e.buildLog } ∈
          (enqueueLoop tried elts).2.2 ∧
      (∀ x ∈ (enqueueLoop tried elts).1, x.id ≠ e.id) ∧
      e.id ∈ (enqueueLoop tried elts).2.1 := by
  intro elts
  induction elts generalizing tried with
  | nil => intro e _ he; cases he
  | cons e' rest ih =>
    intro e hnd he hcf htr
    have hnd' : (rest.map Element.id).Nodup := (List.nodup_cons.mp hnd).2
    have hid' : e'.id ∉ rest.map Element.id := (List.nodup_cons.mp hnd).1
    rcases List.mem_cons.mp he with rfl | he
    · -- e is the head: it takes the fast path
      have h : ¬ (¬ e.cachedFailure ∨ e.id ∈ tried) := by
        simp [hcf]; exact htr
      simp only [enqueueLoop]
      rw [if_neg h]
      refine ⟨List.mem_cons_self _ _, ?_, ?_⟩
      · intro x hx hxid
        exact hid' (hxid ▸ List.mem_map_of_mem Element.id
          (enqueueLoop_queue_subset _ _ x hx))
      · exact enqueueLoop_tried_mono _ _ e.id (List.mem_cons_self _ _)
    · -- e is further down the list
      have hne : e'.id ≠ e.id := by
        intro hcontra
        exact hid' (hcontra ▸ List.mem_map_of_mem Element.id he)
      simp only [enqueueLoop]
      by_cases h : ¬ e'.cachedFailure ∨ e'.id ∈ tried
      · rw [if_pos h]
        obtain ⟨h1, h2, h3⟩ := ih tried e hnd' he hcf htr
        refine ⟨h1, ?_, h3⟩
        intro x hx
        rcases List.mem_cons.mp hx with hx | hx
        · exact hx ▸ hne
        · exact h2 x hx
      · rw [if_neg h]
        have htr' : e.id ∉ e'.id :: tried := by
          intro hcontra
          rcases List.mem_cons.mp hcontra with hc | hc
          · exact hne hc.symm
          · exact htr hc
        obtain ⟨h1, h2, h3⟩ := ih (e'.id :: tried) e hnd' he hcf htr'
        exact ⟨List.mem_cons_of_mem _ h1, h2, h3⟩

/-- Already-tried or not-failed elements go to the normal queue and emit
no synthetic entry. -/
theorem enqueueLoop_normal (tried : List ℕ) :
    ∀ elts (e : Element), (elts.map Element.id).Nodup → e ∈ elts →
      (e.cachedFailure = false ∨ e.id ∈ tried) →
      e ∈ (enqueueLoop tried elts).1 ∧
      (∀ ev ∈ (enqueueLoop tried elts).2.2, ev.element ≠ e.id) := by
  intro elts
  induction elts generalizing tried with
  | nil => intro e _ he; cases he
  | cons e' rest ih =>
    intro e hnd he hcond
    have hnd' : (rest.map Element.id).Nodup := (List.nodup_cons.mp hnd).2
    have hid' : e'.id ∉ rest.map Element.id := (List.nodup_cons.mp hnd).1
    rcases List.mem_cons.mp he with rfl | he
    · have h : ¬ e.cachedFailure ∨ e.id ∈ tried := by
        rcases hcond with hc | hc
        · exact Or.inl (by simp [hc])
        · exact Or.inr hc
      simp only [enqueueLoop]
      rw [if_pos h]
      refine ⟨List.mem_cons_self _ _, ?_⟩
      intro ev hev hevid
      exact hid' (hevid ▸ enqueueLoop_events_ids tried rest ev hev)
    · have hne : e'.id ≠ e.id := by
        intro hcontra
        exact hid' (hcontra ▸ List.mem_map_of_mem Element.id he)
      simp only [enqueueLoop]
      by_cases h : ¬ e'.cachedFailure ∨ e'.id ∈ tried
      · rw [if_pos h]
        obtain ⟨h1, h2⟩ := ih tried e hnd' he hcond
        exact ⟨List.mem_cons_of_mem _ h1, h2⟩
      · rw [if_neg h]
        have hcond' : e.cachedFailure = false ∨ e.id ∈ e'.id :: tried := by
          rcases hcond with hc | hc
          · exact Or.inl hc
          · exact Or.inr (List.mem_cons_of_mem _ hc)
        obtain ⟨h1, h2⟩ := ih (e'.id :: tried) e hnd' he hcond'
        refine ⟨h1, ?_⟩
        intro ev hev
        rcases List.mem_cons.mp hev with hev | hev
        · simp [hev]; exact fun hc => hne hc
        · exact h2 ev hev

end BuildQueue

/-- C9: when an element with a cached build failure is enqueued on the
build queue for the first time, the queue emits a synthetic failed-job
entry — reporting the original error description, detail and build-log
path — without running the build action (the element is not passed to
`super().enqueue`), and marks the element as tried so that on any
subsequent enqueue of the same element it is queued for normal
processing instead. -/
theorem buildqueue_cached_failure_fast_path :
    (∀ (tried : List ℕ) (elts : List BuildQueue.Element)
        (e : BuildQueue.Element),
      (elts.map BuildQueue.Element.id).Nodup → e ∈ elts →
      e.cachedFailure = true → e.id ∉ tried →
      { element := e.id, description := e.resultDesc,
        detail := e.resultDetail,
        logfile := e.buildLog : BuildQueue.SyntheticFailure } ∈
          (BuildQueue.enqueue tried elts).2.2 ∧
      (∀ x ∈ (BuildQueue.enqueue tried elts).1, x.id ≠ e.id) ∧
      e.id ∈ (BuildQueue.enqueue tried elts).2.1) ∧
    (∀ (tried : List ℕ) (e : BuildQueue.Element),
      e.id ∈ tried →
      BuildQueue.enqueue tried [e] = ([e], tried, [])) := by
  constructor
  · intro tried elts e hnd he hcf htr
    exact BuildQueue.enqueueLoop_cached_failure tried elts e hnd he hcf htr
  · intro tried e htr
    simp [BuildQueue.enqueue, BuildQueue.enqueueLoop, htr]

/-- Witness for C9: a concrete cached-failure element is reported
synthetically on first enqueue and queued normally once tried. -/
theorem buildqueue_cached_failure_fast_path_witness :
    ({ element := 1, description := "failed", detail := "boom",
       logfile := "/log/e.log" : BuildQueue.SyntheticFailure } ∈
      (BuildQueue.enqueue []
        [{ id := 1, cachedFailure := true, resultDesc := "failed",
           resultDetail := "boom", buildLog := "/log/e.log" }]).2.2) ∧
    BuildQueue.enqueue [1]
        [{ id := 1, cachedFailure := true, resultDesc := "failed",
           resultDetail := "boom", buildLog := "/log/e.log" }] =
      ([{ id := 1, cachedFailure := true, resultDesc := "failed",
          resultDetail := "boom", buildLog := "/log/e.log" }], [1], []) :=
  ⟨(buildqueue_cached_failure_fast_path.1 []
      [{ id := 1, cachedFailure := true, resultDesc := "failed",
         resultDetail := "boom", buildLog := "/log/e.log" }]
      { id := 1, cachedFailure := true, resultDesc := "failed",
        resultDetail := "boom", buildLog := "/log/e.log" }
      (by decide) (by decide) rfl (by decide)).1,
   buildqueue_cached_failure_fast_path.2 [1]
      { id := 1, cachedFailure := true, resultDesc := "failed",
        resultDetail := "boom", buildLog := "/log/e.log" }
      (by decide)⟩

namespace CasServer

/-!
## C7: `_ByteStreamServicer.Write`
(`buildstream/_artifactcache/casserver.py`, lines 146-179, together with
`_digest_from_resource_name`, lines 236-242)

`cas.add_object` stores the uploaded bytes content-addressed and returns
their digest; per the hash model, the returned digest's hash is the
(injective) hash of the stored content, taken as a parameter `hashFn`.
Python `assert` failures become `WError.assertFailed` carrying the
asserted expression.
-/

/-- A remote-execution `Digest`. -/
structure Digest where
  hash : String
  sizeBytes : ℤ
  deriving DecidableEq, Repr

/-- Errors the handler can raise: a failed `assert`, or the
`ValueError` from `int(parts[1])`. -/
inductive WError where
  | assertFailed (site : String)
  | valueError
  deriving DecidableEq, Repr

/-- One `WriteRequest` chunk of the gRPC stream.  `resourceName` is a
proto3 string, `""` when unset. -/
structure WriteRequest where
  resourceName : String
  writeOffset : ℤ
  finishWrite : Bool
  data : String
  deriving DecidableEq, Repr

/-- The `WriteResponse` message. -/
structure WriteResponse where
  committedSize : ℤ
  deriving DecidableEq, Repr

/-- Result of a `Write` call that did not raise: either the
`PERMISSION_DENIED` status (with the default, empty response) or the
normal response. -/
inductive WriteOutcome where
  | permissionDenied
  | ok (response : WriteResponse)
  deriving DecidableEq, Repr

/-- Shallow embedding of `_digest_from_resource_name`. -/
def digestFromResourceName (resourceName : String) : Except WError Digest :=
  match Clean.splitOnChar '/' resourceName.toList with
  | [h, szs] =>
    match CacheSize.pyInt (String.mk szs) with
    | some n => .ok { hash := String.mk h, sizeBytes := n }
    | none => .error .valueError
  | _ => .error (.assertFailed "len(parts) == 2")

/-- The loop state of `Write`: the running `offset`, the `finished`
flag, `resource_name`/`client_digest` (assigned together on the first
chunk), the bytes written to the temporary file, and the contents passed
to `cas.add_object` so far. -/
structure WriteState where
  offset : ℤ
  finished : Bool
  rnd : Option (String × Digest)
  buffer : String
  stored : List String
  deriving DecidableEq, Repr

/-- The initial loop state. -/
def initWriteState : WriteState :=
  { offset := 0, finished := false, rnd := none, buffer := "", stored := [] }

/-- One iteration of `for request in request_iterator`.  Returns the
state after the iteration and, when an `assert`/`ValueError` fired, the
error (the state still records any object stored before the error:
`cas.add_object` precedes the hash assertion). -/
def writeStep (hashFn : String → String) (st : WriteState)
    (req : WriteRequest) : WriteState × Option WError :=
  -- assert not finished
  if st.finished then (st, some (.assertFailed "not finished"))
  -- assert request.write_offset == offset
  else if req.writeOffset ≠ st.offset then
    (st, some (.assertFailed "request.write_offset == offset"))
  else
    match st.rnd with
    | none =>
      -- First request: parse resource_name into client_digest
      match digestFromResourceName req.resourceName with
      | .error e => (st, some e)
      | .ok d =>
        writeData hashFn
          { st with rnd := some (req.resourceName, d) } d req
    | some (rn, d) =>
      -- If it is set on subsequent calls, it must match the first request
      if req.resourceName ≠ "" ∧ req.resourceName ≠ rn then
        (st, some (.assertFailed "request.resource_name == resource_name"))
      else
        writeData hashFn st d req
where
  /-- `out.write(request.data)`, the offset update and the
  `finish_write` block; `d` is the Python local `client_digest`. -/
  writeData (hashFn : String → String) (st : WriteState) (d : Digest)
      (req : WriteRequest) : WriteState × Option WError :=
    let st := { st with buffer := st.buffer ++ req.data,
                        offset := st.offset + (req.data.length : ℤ) }
    if req.finishWrite then
      -- assert client_digest.size_bytes == offset
      if d.sizeBytes ≠ st.offset then
        (st, some (.assertFailed "client_digest.size_bytes == offset"))
      else
        -- digest = self.cas.add_object(path=out.name)
        let st := { st with stored := st.stored ++ [st.buffer] }
        -- assert digest.hash == client_digest.hash
        if hashFn st.buffer ≠ d.hash then
          (st, some (.assertFailed "digest.hash == client_digest.hash"))
        else
          ({ st with finished := true }, none)
    else
      (st, none)

/-- The `for request in request_iterator` loop. -/
def writeLoop (hashFn : String → String) :
    List WriteRequest → WriteState → WriteState × Option WError
  | [], st => (st, none)
  | req :: rest, st =>
    match writeStep hashFn st req with
    | (st', none) => writeLoop hashFn rest st'
    | (st', some e) => (st', some e)

/-- Shallow embedding of `_ByteStreamServicer.Write`: the contents
stored in the CAS and the outcome. -/
def write (hashFn : String → String) (enablePush : Bool)
    (reqs : List WriteRequest) : List String × Except WError WriteOutcome :=
  if ¬ enablePush then
    -- context.set_code(grpc.StatusCode.PERMISSION_DENIED); return response
    ([], .ok .permissionDenied)
  else
    match writeLoop hashFn reqs initWriteState with
    | (st, some e) => (st.stored, .error e)
    | (st, none) =>
      -- assert finished
      if st.finished then
        (st.stored, .ok (.ok { committedSize := st.offset }))
      else
        (st.stored, .error (.assertFailed "finished"))

/-- The concatenation of all chunk payloads. -/
def dataConcat : List WriteRequest → String
  | [] => ""
  | r :: rest => r.data ++ dataConcat rest

/-- Total payload length. -/
def totalLen : List WriteRequest → ℤ
  | [] => 0
  | r :: rest => (r.data.length : ℤ) + totalLen rest

end CasServer

namespace CasServer

/-- `offset` tracks the number of bytes written to the temporary file. -/
def WF (st : WriteState) : Prop := st.offset = (st.buffer.length : ℤ)

theorem writeData_stored (hashFn : String → String) (st : WriteState)
    (d : Digest) (req : WriteRequest) :
    ∀ c ∈ (writeStep.writeData hashFn st d req).1.stored,
      c ∈ st.stored ∨
      (req.finishWrite = true ∧ c = st.buffer ++ req.data ∧
       d.sizeBytes = st.offset + (req.data.length : ℤ)) := by
  intro c hc
  simp only [writeStep.writeData] at hc
  split_ifs at hc with h1 h2 h3 <;> simp_all

theorem writeData_WF (hashFn : String → String) (st : WriteState)
    (d : Digest) (req : WriteRequest) (h : WF st) :
    WF (writeStep.writeData hashFn st d req).1 := by
  simp only [writeStep.writeData]
  split_ifs <;> simp_all [WF]

theorem writeData_success (hashFn : String → String) (st : WriteState)
    (d : Digest) (req : WriteRequest) (st' : WriteState)
    (h : writeStep.writeData hashFn st d req = (st', none)) :
    st'.buffer = st.buffer ++ req.data ∧
    st'.offset = st.offset + (req.data.length : ℤ) ∧
    st'.rnd = st.rnd ∧
    (req.finishWrite = true →
      st'.finished = true ∧ st'.stored = st.stored ++ [st'.buffer] ∧
      hashFn st'.buffer = d.hash ∧ d.sizeBytes = st'.offset) ∧
    (req.finishWrite = false →
      st'.finished = st.finished ∧ st'.stored = st.stored) := by
  simp only [writeStep.writeData] at h
  split_ifs at h with h1 h2 h3
  · cases h
  · cases h
  · -- finish_write, size and hash both verified
    cases h
    refine ⟨rfl, rfl, rfl, fun _ => ⟨rfl, rfl, ?_, ?_⟩, fun hf => by simp [h1] at hf⟩
    · exact not_ne_iff.mp h3
    · exact not_ne_iff.mp h2
  · -- not finish_write
    cases h
    exact ⟨rfl, rfl, rfl, fun hf => by simp [hf] at h1, fun _ => ⟨rfl, rfl⟩⟩

theorem writeStep_WF (hashFn : String → String) (st : WriteState)
    (req : WriteRequest) (h : WF st) : WF (writeStep hashFn st req).1 := by
  simp only [writeStep]
  split
  · exact h
  split
  · exact h
  cases hrnd : st.rnd with
  | none =>
    rcases hp : digestFromResourceName req.resourceName with e | d
    · exact h
    · exact writeData_WF hashFn _ d req h
  | some p =>
    obtain ⟨rn, d⟩ := p
    show WF (if req.resourceName ≠ "" ∧ req.resourceName ≠ rn then
        (st, some (WError.assertFailed "request.resource_name == resource_name"))
      else writeStep.writeData hashFn st d req).1
    split_ifs
    · exact h
    · exact writeData_WF hashFn st d req h

theorem writeStep_stored (hashFn : String → String) (st : WriteState)
    (req : WriteRequest) :
    ∀ c ∈ (writeStep hashFn st req).1.stored,
      c ∈ st.stored ∨
      (req.finishWrite = true ∧ c = st.buffer ++ req.data ∧
       ∃ d, d.sizeBytes = st.offset + (req.data.length : ℤ) ∧
         ((∃ rn, st.rnd = some (rn, d)) ∨
          (st.rnd = none ∧ digestFromResourceName req.resourceName = .ok d))) := by
  intro c hc
  simp only [writeStep] at hc
  split at hc
  · exact Or.inl hc
  split at hc
  · exact Or.inl hc
  revert hc
  cases hrnd : st.rnd with
  | none =>
    rcases hp : digestFromResourceName req.resourceName with e | d
    · exact fun hc => Or.inl hc
    · intro hc
      rcases writeData_stored hashFn _ d req c hc with h | ⟨hf, hcx, hsz⟩
      · exact Or.inl h
      · exact Or.inr ⟨hf, hcx, d, hsz, Or.inr ⟨rfl, rfl⟩⟩
  | some p =>
    obtain ⟨rn, d⟩ := p
    show c ∈ (if req.resourceName ≠ "" ∧ req.resourceName ≠ rn then
        (st, some (WError.assertFailed "request.resource_name == resource_name"))
      else writeStep.writeData hashFn st d req).1.stored →
      c ∈ st.stored ∨
      (req.finishWrite = true ∧ c = st.buffer ++ req.data ∧
       ∃ dd, dd.sizeBytes = st.offset + (req.data.length : ℤ) ∧
         ((∃ rn1, (some (rn, d) : Option (String × Digest)) = some (rn1, dd)) ∨
          ((some (rn, d) : Option (String × Digest)) = none ∧
           digestFromResourceName req.resourceName = .ok dd)))
    split_ifs
    · exact fun hc => Or.inl hc
    · intro hc
      rcases writeData_stored hashFn st d req c hc with hmem | ⟨hf, hcx, hsz⟩
      · exact Or.inl hmem
      · exact Or.inr ⟨hf, hcx, d, hsz, Or.inl ⟨rn, rfl⟩⟩

theorem writeStep_finished (hashFn : String → String) (st : WriteState)
    (req : WriteRequest) (h : st.finished = true) :
    writeStep hashFn st req = (st, some (.assertFailed "not finished")) := by
  simp [writeStep, h]

theorem writeStep_success (hashFn : String → String) (st : WriteState)
    (req : WriteRequest) (st' : WriteState)
    (h : writeStep hashFn st req = (st', none)) :
    st.finished = false ∧ req.writeOffset = st.offset ∧
    st'.buffer = st.buffer ++ req.data ∧
    st'.offset = st.offset + (req.data.length : ℤ) ∧
    (∃ rn d, st'.rnd = some (rn, d) ∧
      ((st.rnd = some (rn, d) ∧ (req.resourceName = "" ∨ req.resourceName = rn)) ∨
       (st.rnd = none ∧ rn = req.resourceName ∧
        digestFromResourceName req.resourceName = .ok d)) ∧
      (req.finishWrite = true →
        st'.finished = true ∧ st'.stored = st.stored ++ [st'.buffer] ∧
        hashFn st'.buffer = d.hash ∧ d.sizeBytes = st'.offset)) ∧
    (req.finishWrite = false →
      st'.finished = st.finished ∧ st'.stored = st.stored) := by
  simp only [writeStep] at h
  split at h
  next hfin => simp at h
  next hfin =>
  split at h
  next hoff => simp at h
  next hoff =>
  have hfin' : st.finished = false := by simpa using hfin
  have hoff' : req.writeOffset = st.offset := not_ne_iff.mp hoff
  split at h
  next hrnd =>
    split at h
    next e hp => simp at h
    next d hp =>
      obtain ⟨hbuf, hofs, hrnd', hfint, hfinf⟩ :=
        writeData_success hashFn _ d req st' h
      refine ⟨hfin', hoff', hbuf, hofs,
        ⟨req.resourceName, d, by simpa using hrnd',
         Or.inr ⟨hrnd, rfl, hp⟩, ?_⟩, ?_⟩
      · intro hf
        obtain ⟨a, b, cx, dd⟩ := hfint hf
        exact ⟨a, by simpa using b, cx, dd⟩
      · intro hf
        obtain ⟨a, b⟩ := hfinf hf
        exact ⟨by simpa using a, by simpa using b⟩
  next rn d hrnd =>
    split at h
    next hrn => simp at h
    next hrn =>
      obtain ⟨hbuf, hofs, hrnd', hfint, hfinf⟩ :=
        writeData_success hashFn st d req st' h
      have hname : req.resourceName = "" ∨ req.resourceName = rn := by
        by_contra hcon
        push_neg at hcon
        exact hrn ⟨hcon.1, hcon.2⟩
      exact ⟨hfin', hoff', hbuf, hofs,
        ⟨rn, d, by rw [hrnd', hrnd], Or.inl ⟨hrnd, hname⟩, hfint⟩, hfinf⟩

end CasServer



namespace CasServer

theorem writeLoop_WF (hashFn : String → String) :
    ∀ (reqs : List WriteRequest) (st : WriteState), WF st →
      WF (writeLoop hashFn reqs st).1 := by
  intro reqs
  induction reqs with
  | nil => intro st h; exact h
  | cons r rest ih =>
    intro st h
    simp only [writeLoop]
    cases hstep : writeStep hashFn st r with
    | mk st1 e =>
      have h1 : WF st1 := by
        have := writeStep_WF hashFn st r h
        rw [hstep] at this
        exact this
      cases e with
      | none => exact ih st1 h1
      | some e => exact h1

theorem writeLoop_stored (hashFn : String → String) :
    ∀ (reqs : List WriteRequest) (st : WriteState), WF st →
      ∀ c ∈ (writeLoop hashFn reqs st).1.stored,
        c ∈ st.stored ∨
        ((∃ r ∈ reqs, r.finishWrite = true) ∧
         ∃ d, d.sizeBytes = (c.length : ℤ) ∧
           ((∃ rn, st.rnd = some (rn, d)) ∨
            (st.rnd = none ∧ ∃ r1 rest, reqs = r1 :: rest ∧
              digestFromResourceName r1.resourceName = .ok d))) := by
  intro reqs
  induction reqs with
  | nil => intro st _ c hc; exact Or.inl hc
  | cons r rest ih =>
    intro st hwf c hc
    simp only [writeLoop] at hc
    have hlen : ∀ d : Digest,
        d.sizeBytes = st.offset + (r.data.length : ℤ) →
        d.sizeBytes = ((st.buffer ++ r.data).length : ℤ) := by
      intro d hd
      rw [hd, hwf]
      push_cast [String.length_append]
      ring
    cases hstep : writeStep hashFn st r with
    | mk st1 e =>
      rw [hstep] at hc
      have hstep_stored := writeStep_stored hashFn st r
      rw [hstep] at hstep_stored
      cases e with
      | some e =>
        rcases hstep_stored c hc with hmem | ⟨hf, hcx, d, hsz, horig⟩
        · exact Or.inl hmem
        · refine Or.inr ⟨⟨r, List.mem_cons_self _ _, hf⟩, d, ?_, ?_⟩
          · rw [hcx]; exact hlen d hsz
          · rcases horig with h | ⟨hn, hp⟩
            · exact Or.inl h
            · exact Or.inr ⟨hn, r, rest, rfl, hp⟩
      | none =>
        have hwf1 : WF st1 := by
          have := writeStep_WF hashFn st r hwf
          rw [hstep] at this
          exact this
        rcases ih st1 hwf1 c hc with hmem | ⟨⟨r', hr', hf'⟩, d, hsz, horig⟩
        · rcases hstep_stored c hmem with hmem' | ⟨hf, hcx, d, hsz, horig⟩
          · exact Or.inl hmem'
          · refine Or.inr ⟨⟨r, List.mem_cons_self _ _, hf⟩, d, ?_, ?_⟩
            · rw [hcx]; exact hlen d hsz
            · rcases horig with h | ⟨hn, hp⟩
              · exact Or.inl h
              · exact Or.inr ⟨hn, r, rest, rfl, hp⟩
        · -- stored during the tail: trace the digest back through the step
          obtain ⟨hfin1, hoffeq, hbuf1, hofs1, ⟨rn1, d1, hrnd1, horig1, _⟩, _⟩ :=
            writeStep_success hashFn st r st1 hstep
          refine Or.inr ⟨⟨r', List.mem_cons_of_mem _ hr', hf'⟩, d, hsz, ?_⟩
          rcases horig with ⟨rn', hrn'⟩ | ⟨hnone, _⟩
          · -- st1.rnd carries d; writeStep_success links it to st
            rw [hrnd1] at hrn'
            obtain ⟨h1, h2⟩ : rn1 = rn' ∧ d1 = d := by
              have := Option.some.inj hrn'
              exact ⟨congrArg Prod.fst this, congrArg Prod.snd this⟩
            subst h1; subst h2
            rcases horig1 with ⟨hsome, _⟩ | ⟨hnone, hrn, hp⟩
            · exact Or.inl ⟨rn1, hsome⟩
            · exact Or.inr ⟨hnone, r, rest, rfl, hrn ▸ hp⟩
          · rw [hrnd1] at hnone; cases hnone
  
theorem writeLoop_names (hashFn : String → String) :
    ∀ (reqs : List WriteRequest) (st st' : WriteState) (rn : String)
      (d : Digest), st.rnd = some (rn, d) →
      writeLoop hashFn reqs st = (st', none) →
      st'.rnd = some (rn, d) ∧
      ∀ r ∈ reqs, r.resourceName = "" ∨ r.resourceName = rn := by
  intro reqs
  induction reqs with
  | nil =>
    intro st st' rn d hrnd h
    cases h
    exact ⟨hrnd, by intro r hr; cases hr⟩
  | cons r rest ih =>
    intro st st' rn d hrnd h
    simp only [writeLoop] at h
    cases hstep : writeStep hashFn st r with
    | mk st1 e =>
      rw [hstep] at h
      cases e with
      | some e => simp at h
      | none =>
        obtain ⟨_, _, _, _, ⟨rn1, d1, hrnd1, horig1, _⟩, _⟩ :=
          writeStep_success hashFn st r st1 hstep
        rcases horig1 with ⟨hsome, hname⟩ | ⟨hnone, _⟩
        · rw [hrnd] at hsome
          obtain ⟨h1, h2⟩ : rn = rn1 ∧ d = d1 := by
            have := Option.some.inj hsome
            exact ⟨congrArg Prod.fst this, congrArg Prod.snd this⟩
          subst h1; subst h2
          obtain ⟨hrnd', hnames⟩ := ih st1 st' rn d hrnd1 h
          refine ⟨hrnd', ?_⟩
          intro r' hr'
          rcases List.mem_cons.mp hr' with hr' | hr'
          · exact hr' ▸ hname
          · exact hnames r' hr'
        · rw [hrnd] at hnone; cases hnone
  
theorem writeLoop_success (hashFn : String → String) :
    ∀ (reqs : List WriteRequest) (st st' : WriteState),
      st.finished = false → writeLoop hashFn reqs st = (st', none) →
      st'.buffer = st.buffer ++ dataConcat reqs ∧
      st'.offset = st.offset + totalLen reqs ∧
      (st'.finished = true →
        st'.stored = st.stored ++ [st'.buffer] ∧
        ∃ rn d, st'.rnd = some (rn, d) ∧ hashFn st'.buffer = d.hash ∧
          d.sizeBytes = st'.offset) ∧
      (st'.finished = false → st'.stored = st.stored) := by
  intro reqs
  induction reqs with
  | nil =>
    intro st st' hfin h
    cases h
    refine ⟨by simp [dataConcat], by simp [totalLen], ?_, fun _ => rfl⟩
    intro hcontra
    rw [hfin] at hcontra
    cases hcontra
  | cons r rest ih =>
    intro st st' hfin h
    simp only [writeLoop] at h
    cases hstep : writeStep hashFn st r with
    | mk st1 e =>
      rw [hstep] at h
      cases e with
      | some e => simp at h
      | none =>
        obtain ⟨_, _, hbuf1, hofs1, ⟨rn1, d1, hrnd1, _, hfint⟩, hfinf⟩ :=
          writeStep_success hashFn st r st1 hstep
        by_cases hf1 : st1.finished = true
        · -- the head chunk carried finish_write: the tail must be empty
          have hfw : r.finishWrite = true := by
            by_contra hfw
            have := (hfinf (Bool.not_eq_true _ ▸ eq_false_of_ne_true hfw)).1
            rw [hf1, hfin] at this
            cases this
          obtain ⟨hfin1, hst1, hhash, hsz⟩ := hfint hfw
          cases rest with
          | nil =>
            cases h
            refine ⟨by simpa [dataConcat] using hbuf1,
                    by simpa [totalLen] using hofs1, ?_, ?_⟩
            · intro _
              exact ⟨hst1, rn1, d1, hrnd1, hhash, hsz⟩
            · intro hcontra
              rw [hfin1] at hcontra
              cases hcontra
          | cons r2 rest2 =>
            have h' : writeLoop hashFn (r2 :: rest2) st1 = (st', none) := h
            rw [writeLoop, writeStep_finished hashFn st1 r2 hfin1] at h'
            simp at h'
        · have hf1' : st1.finished = false := eq_false_of_ne_true hf1
          obtain ⟨hbuf', hofs', hfint', hfinf'⟩ := ih st1 st' hf1' h
          have hfw' : r.finishWrite = false := by
            cases hrf : r.finishWrite
            · rfl
            · exact absurd (hfint hrf).1 (by rw [hf1']; simp)
          have hstored1 : st1.stored = st.stored := (hfinf hfw').2
          refine ⟨?_, ?_, ?_, ?_⟩
          · rw [hbuf', hbuf1]
            simp [dataConcat, String.append_assoc]
          · rw [hofs', hofs1]
            simp [totalLen]
            ring
          · intro hfin'
            obtain ⟨hst', hrest⟩ := hfint' hfin'
            exact ⟨by rw [hst', hstored1], hrest⟩
          · intro hfin'
            rw [hfinf' hfin', hstored1]
  
end CasServer

/-- C7: for every `ByteStream.Write` call on the CAS server: if push is
disabled the server sets `PERMISSION_DENIED` and stores nothing;
otherwise a blob is stored only upon a chunk with `finish_write` set and
only after verifying that the total bytes written equal the size
declared in the first chunk's `resource_name`; the stored object's hash
is then verified against the declared hash (a successful call implies it
matched); a `resource_name` sent on a later chunk must equal the first
one (any successful call has all non-empty resource names equal to the
first); and the response's `committed_size` equals the number of bytes
written. -/
theorem bytestream_write_spec :
    (∀ (hashFn : String → String) (reqs : List CasServer.WriteRequest),
      CasServer.write hashFn false reqs = ([], .ok .permissionDenied)) ∧
    (∀ (hashFn : String → String) (reqs : List CasServer.WriteRequest)
        (c : String), c ∈ (CasServer.write hashFn true reqs).1 →
      (∃ r ∈ reqs, r.finishWrite = true) ∧
      ∃ r1 rest d, reqs = r1 :: rest ∧
        CasServer.digestFromResourceName r1.resourceName = .ok d ∧
        d.sizeBytes = (c.length : ℤ)) ∧
    (∀ (hashFn : String → String) (reqs : List CasServer.WriteRequest)
        (resp : CasServer.WriteResponse),
      (CasServer.write hashFn true reqs).2 = .ok (.ok resp) →
      ∃ r1 rest d, reqs = r1 :: rest ∧
        CasServer.digestFromResourceName r1.resourceName = .ok d ∧
        (CasServer.write hashFn true reqs).1 = [CasServer.dataConcat reqs] ∧
        hashFn (CasServer.dataConcat reqs) = d.hash ∧
        d.sizeBytes = CasServer.totalLen reqs ∧
        resp.committedSize = CasServer.totalLen reqs ∧
        ∀ r ∈ rest, r.resourceName = "" ∨ r.resourceName = r1.resourceName) := by
  have hwfInit : CasServer.WF CasServer.initWriteState := by
    simp [CasServer.WF, CasServer.initWriteState]
  refine ⟨?_, ?_, ?_⟩
  · intro hashFn reqs
    simp [CasServer.write]
  · intro hashFn reqs c hc
    simp only [CasServer.write] at hc
    rw [if_neg (by simp)] at hc
    cases hloop : CasServer.writeLoop hashFn reqs CasServer.initWriteState with
    | mk st e =>
      rw [hloop] at hc
      have hcst : c ∈ st.stored := by
        cases e with
        | some e => exact hc
        | none =>
          have hc' : c ∈ (if st.finished = true then
              (st.stored, (Except.ok (CasServer.WriteOutcome.ok
                { committedSize := st.offset }) :
                  Except CasServer.WError CasServer.WriteOutcome))
            else
              (st.stored,
               Except.error (CasServer.WError.assertFailed "finished"))).1 := hc
          by_cases hfin : st.finished = true
          · rw [if_pos hfin] at hc'; exact hc'
          · rw [if_neg hfin] at hc'; exact hc'
      have := CasServer.writeLoop_stored hashFn reqs CasServer.initWriteState
        hwfInit c (by rw [hloop]; exact hcst)
      rcases this with hmem | ⟨hfinish, d, hsz, horig⟩
      · cases hmem
      · refine ⟨hfinish, ?_⟩
        rcases horig with ⟨rn, hcontra⟩ | ⟨_, r1, rest, heq, hp⟩
        · cases hcontra
        · exact ⟨r1, rest, d, heq, hp, hsz⟩
  · intro hashFn reqs resp hresp
    simp only [CasServer.write] at hresp
    rw [if_neg (by simp)] at hresp
    cases hloop : CasServer.writeLoop hashFn reqs CasServer.initWriteState with
    | mk st e =>
      rw [hloop] at hresp
      cases e with
      | some e => simp at hresp
      | none =>
        have hresp' : (if st.finished = true then
            (st.stored, (Except.ok (CasServer.WriteOutcome.ok
              { committedSize := st.offset }) :
                Except CasServer.WError CasServer.WriteOutcome))
          else
            (st.stored,
             Except.error (CasServer.WError.assertFailed "finished"))).2 =
            .ok (.ok resp) := hresp
        by_cases hfin : st.finished = true
        · rw [if_pos hfin] at hresp'
          simp only [Except.ok.injEq, CasServer.WriteOutcome.ok.injEq] at hresp'
          obtain ⟨hbuf, hofs, hfint, _⟩ :=
            CasServer.writeLoop_success hashFn reqs CasServer.initWriteState st
              rfl hloop
          obtain ⟨hstored, rn, d, hrnd, hhash, hsz⟩ := hfint hfin
          have hbuf' : st.buffer = CasServer.dataConcat reqs := by
            simpa [CasServer.initWriteState] using hbuf
          have hofs' : st.offset = CasServer.totalLen reqs := by
            simpa [CasServer.initWriteState] using hofs
          cases reqs with
          | nil =>
            rw [show CasServer.writeLoop hashFn [] CasServer.initWriteState =
                (CasServer.initWriteState, none) from rfl] at hloop
            cases hloop
            cases hfin
          | cons r1 rest =>
            -- peel off the first chunk to identify the parsed digest
            have hloop' : (match CasServer.writeStep hashFn
                CasServer.initWriteState r1 with
              | (st1, none) => CasServer.writeLoop hashFn rest st1
              | (st1, some e) => (st1, some e)) = (st, none) := hloop
            cases hstep : CasServer.writeStep hashFn CasServer.initWriteState r1 with
            | mk st1 e1 =>
              rw [hstep] at hloop'
              cases e1 with
              | some e1 => simp at hloop'
              | none =>
                obtain ⟨_, _, _, _, ⟨rn1, d1, hrnd1, horig1, _⟩, _⟩ :=
                  CasServer.writeStep_success hashFn CasServer.initWriteState
                    r1 st1 hstep
                rcases horig1 with ⟨hcontra, _⟩ | ⟨_, hrneq, hp1⟩
                · simp [CasServer.initWriteState] at hcontra
                obtain ⟨hrndst, hnames⟩ :=
                  CasServer.writeLoop_names hashFn rest st1 st rn1 d1 hrnd1 hloop'
                have hdd : rn = rn1 ∧ d = d1 := by
                  rw [hrnd] at hrndst
                  have := Option.some.inj hrndst.symm
                  exact ⟨(congrArg Prod.fst this).symm, (congrArg Prod.snd this).symm⟩
                obtain ⟨hrn', hd'⟩ := hdd
                subst hrn'
                subst hd'
                have hwrite1 : (CasServer.write hashFn true (r1 :: rest)).1 =
                    st.stored := by
                  have hw : CasServer.write hashFn true (r1 :: rest) =
                      (if st.finished = true then
                        (st.stored, (Except.ok (CasServer.WriteOutcome.ok
                          { committedSize := st.offset }) :
                            Except CasServer.WError CasServer.WriteOutcome))
                      else
                        (st.stored, Except.error
                          (CasServer.WError.assertFailed "finished"))) := by
                    simp only [CasServer.write]
                    rw [if_neg (by simp), hloop]
                  rw [hw, if_pos hfin]
                refine ⟨r1, rest, d, rfl, hrneq ▸ hp1, ?_, ?_, ?_, ?_, ?_⟩
                · rw [hwrite1, hstored, hbuf']
                  simp [CasServer.initWriteState]
                · rw [← hbuf']; exact hhash
                · rw [hsz, hofs']
                · rw [← hresp', hofs']
                · intro r hr
                  rcases hnames r hr with h | h
                  · exact Or.inl h
                  · exact Or.inr (h.trans hrneq)
        · rw [if_neg hfin] at hresp'
          simp at hresp'

/-- Witness for C7: a concrete two-chunk upload of `"hello"` (declared
as `"hello/5"` under the identity hash), plus the push-disabled case. -/
theorem bytestream_write_spec_witness :
    CasServer.write (fun s => s) false
        [{ resourceName := "hello/5", writeOffset := 0,
           finishWrite := false, data := "hel" }] =
      ([], .ok .permissionDenied) ∧
    ∃ r1 rest d,
      ([{ resourceName := "hello/5", writeOffset := 0,
          finishWrite := false, data := "hel" },
        { resourceName := "", writeOffset := 3,
          finishWrite := true, data := "lo" }] :
        List CasServer.WriteRequest) = r1 :: rest ∧
      CasServer.digestFromResourceName r1.resourceName = .ok d ∧
      (CasServer.write (fun s => s) true
        [{ resourceName := "hello/5", writeOffset := 0,
           finishWrite := false, data := "hel" },
         { resourceName := "", writeOffset := 3,
           finishWrite := true, data := "lo" }]).1 =
        [CasServer.dataConcat
          [{ resourceName := "hello/5", writeOffset := 0,
             finishWrite := false, data := "hel" },
           { resourceName := "", writeOffset := 3,
             finishWrite := true, data := "lo" }]] ∧
      (fun s => s) (CasServer.dataConcat
          [{ resourceName := "hello/5", writeOffset := 0,
             finishWrite := false, data := "hel" },
           { resourceName := "", writeOffset := 3,
             finishWrite := true, data := "lo" }]) = d.hash ∧
      d.sizeBytes = CasServer.totalLen
          [{ resourceName := "hello/5", writeOffset := 0,
             finishWrite := false, data := "hel" },
           { resourceName := "", writeOffset := 3,
             finishWrite := true, data := "lo" }] ∧
      ({ committedSize := 5 } : CasServer.WriteResponse).committedSize =
        CasServer.totalLen
          [{ resourceName := "hello/5", writeOffset := 0,
             finishWrite := false, data := "hel" },
           { resourceName := "", writeOffset := 3,
             finishWrite := true, data := "lo" }] ∧
      ∀ r ∈ rest, r.resourceName = "" ∨ r.resourceName = r1.resourceName :=
  ⟨bytestream_write_spec.1 (fun s => s) _,
   bytestream_write_spec.2.2 (fun s => s) _ { committedSize := 5 } (by rfl)⟩

namespace DepSort

/-!
## C3: `Loader._sort_dependencies`
(`buildstream/_loader/loader.py`, lines 336-390)

`LoadElement` lives in `buildstream/_loader/loadelement.py`, which is
not part of the sources; its `name`, `junction` and dependency list are
modelled as record fields, and `LoadElement.depends` is modelled from
the spec (below).  `element.dependencies.sort(key=cmp_to_key(...))` is
CPython `list.sort`, i.e. Timsort; for lists shorter than 64 elements
(every dependency list this claim is evaluated on) Timsort computes
`minrun = n`, finds the single initial natural run (strictly descending
or non-descending) and extends it over the whole list by rightmost
binary insertion, which is what `pySort` implements.
-/

/-- `Symbol.BUILD` / `Symbol.RUNTIME` / `Symbol.ALL` dependency types. -/
inductive DepType where
  | build
  | runtime
  | all
  deriving DecidableEq, Repr

/-- A `LoadElement.Dependency`: the target element (by id) and the
dependency type. -/
structure LDep where
  elem : ℕ
  depType : DepType
  deriving DecidableEq, Repr

/-- A `LoadElement`: name, optional junction name, dependency list.
The element graph is a list of these, indexed by element id. -/
structure LNode where
  name : String
  junction : Option String
  deps : List LDep
  deriving DecidableEq, Repr

/-- The node an out-of-range id resolves to (never reached on
well-formed graphs). -/
def dfltNode : LNode := { name := "", junction := none, deps := [] }

/-- Modelled from the spec: `LoadElement.depends(other)` (defined in
`buildstream/_loader/loadelement.py`, which is missing from the
sources) decides whether the element *transitively* depends on `other`;
spec §4.7: "any dep which transitively depends on another dep of the
same parent appears later".  Implemented as bounded reachability over
the dependency edges (a nonempty path). -/
def dependsFuel (g : List LNode) : ℕ → ℕ → ℕ → Bool
  | 0, _, _ => false
  | fuel + 1, a, b =>
    (g.getD a dfltNode).deps.any fun d =>
      d.elem = b || dependsFuel g fuel d.elem b

/-- Modelled from the spec: transitive dependency, with enough fuel for
any acyclic graph over `g`. -/
def depends (g : List LNode) (a b : ℕ) : Bool :=
  dependsFuel g g.length a b

/-- Python `str` comparison (`<`): lexicographic by Unicode code
point.  (Lean's own `String.ltb` is not kernel-reducible, so the
comparison is spelt out over the character list.) -/
def pyStrLt : List Char → List Char → Bool
  | [], [] => false
  | [], _ :: _ => true
  | _ :: _, [] => false
  | a :: as, b :: bs =>
    if a.toNat < b.toNat then true
    else if b.toNat < a.toNat then false
    else pyStrLt as bs

/-- Shallow embedding of `dependency_cmp` inside
`Loader._sort_dependencies`. -/
def dependencyCmp (g : List LNode) (depA depB : LDep) : Int :=
  let a := g.getD depA.elem dfltNode
  let b := g.getD depB.elem dfltNode
  -- Sort on inter element dependency first
  if depends g depA.elem depB.elem then 1
  else if depends g depB.elem depA.elem then -1
  -- runtime-only dependencies last
  else if depA.depType ≠ depB.depType ∧ depA.depType = .runtime then 1
  else if depA.depType ≠ depB.depType ∧ depB.depType = .runtime then -1
  -- All things being equal, string comparison
  else if pyStrLt b.name.toList a.name.toList then 1
  else if pyStrLt a.name.toList b.name.toList then -1
  else
    match a.junction, b.junction with
    | some ja, some jb =>
      if pyStrLt jb.toList ja.toList then 1
      else if pyStrLt ja.toList jb.toList then -1
      else 0
    | some _, none => -1
    | none, some _ => 1
    | none, none => 0

/-- Rightmost binary-insertion position, as in CPython `binarysort`:
invariant `all left of l are <= x < all right of r`; returns the final
`l`.  The fuel bounds the bisection depth (any value > `r - l` is
enough). -/
def binInsertPosAux (cmp : α → α → Int) (arr : List α) (x : α) :
    ℕ → ℕ → ℕ → ℕ
  | 0, l, _ => l
  | fuel + 1, l, r =>
    if l < r then
      let p := l + (r - l) / 2
      if cmp x (arr.getD p x) < 0 then binInsertPosAux cmp arr x fuel l p
      else binInsertPosAux cmp arr x fuel (p + 1) r
    else l

/-- Rightmost binary-insertion position into the sorted prefix `arr`. -/
def binInsertPos (cmp : α → α → Int) (arr : List α) (x : α) : ℕ :=
  binInsertPosAux cmp arr x (arr.length + 1) 0 arr.length

/-- Insert `x` at index `i`. -/
def insertAt (arr : List α) (i : ℕ) (x : α) : List α :=
  arr.take i ++ x :: arr.drop i

/-- CPython `binarysort`: insert the remaining elements one by one into
the sorted prefix. -/
def binarySortLoop (cmp : α → α → Int) : List α → List α → List α
  | sorted, [] => sorted
  | sorted, x :: rest =>
    binarySortLoop cmp (insertAt sorted (binInsertPos cmp sorted x) x) rest

/-- CPython `count_run`, ascending case: extend while `a[i] >= a[i-1]`
(i.e. not `cmp a[i] a[i-1] < 0`). -/
def countRunAsc (cmp : α → α → Int) (prev : α) :
    List α → List α × List α
  | [] => ([], [])
  | x :: rest =>
    if cmp x prev < 0 then ([], x :: rest)
    else
      let p := countRunAsc cmp x rest
      (x :: p.1, p.2)

/-- CPython `count_run`, strictly-descending case. -/
def countRunDesc (cmp : α → α → Int) (prev : α) :
    List α → List α × List α
  | [] => ([], [])
  | x :: rest =>
    if cmp x prev < 0 then
      let p := countRunDesc cmp x rest
      (x :: p.1, p.2)
    else ([], x :: rest)

/-- CPython `list.sort` with comparator `cmp` (via
`functools.cmp_to_key`), for lists shorter than 64 elements: one
natural run (a strictly descending run is reversed), then binary
insertion of the rest. -/
def pySort (cmp : α → α → Int) : List α → List α
  | [] => []
  | [x] => [x]
  | x0 :: x1 :: rest =>
    if cmp x1 x0 < 0 then
      let p := countRunDesc cmp x1 rest
      binarySortLoop cmp (x0 :: x1 :: p.1).reverse p.2
    else
      let p := countRunAsc cmp x1 rest
      binarySortLoop cmp (x0 :: x1 :: p.1) p.2

/-- Shallow embedding of `Loader._sort_dependencies`, processing a work
list of element ids: for `e` not yet visited, first recurse into its
dependencies (in list order) and then sort `e`'s own dependency list
with `dependency_cmp`, finally adding `e` to `visited`.
`sortMany fuel g [e] []` is `loader._sort_dependencies(element e)`. -/
def sortMany : ℕ → List LNode → List ℕ → List ℕ → List LNode × List ℕ
  | 0, g, _, visited => (g, visited)
  | _ + 1, g, [], visited => (g, visited)
  | fuel + 1, g, e :: es, visited =>
    if e ∈ visited then sortMany fuel g es visited
    else
      let p := sortMany fuel g ((g.getD e dfltNode).deps.map LDep.elem) visited
      let node := p.1.getD e dfltNode
      let g1 := p.1.set e { node with deps := pySort (dependencyCmp p.1) node.deps }
      sortMany fuel g1 es (e :: p.2)

/-- The four-element graph exhibiting the failing input: the parent
`p.bst` declares its direct dependencies in the order
`a.bst, b.bst, c.bst`, and `a.bst` depends on `c.bst`. -/
def bugGraph : List LNode :=
  [{ name := "p.bst", junction := none,
     deps := [{ elem := 1, depType := .build },
              { elem := 2, depType := .build },
              { elem := 3, depType := .build }] },
   { name := "a.bst", junction := none,
     deps := [{ elem := 3, depType := .build }] },
   { name := "b.bst", junction := none, deps := [] },
   { name := "c.bst", junction := none, deps := [] }]

end DepSort

/-- C3 (failing-input evaluation): element 1 (`a.bst`) transitively
depends on element 3 (`c.bst`), both direct dependencies of element 0
(`p.bst`), yet after `Loader._sort_dependencies` the parent's
dependency list still places `a.bst` (index 0) before `c.bst`
(index 2): the sort consults the comparator only on the adjacent pairs
(`a.bst`,`b.bst`) and (`b.bst`,`c.bst`), both ordered by name, so the
list counts as one ascending run and is returned unchanged — not a
topological order. -/
theorem sort_dependencies_counterexample :
    DepSort.depends DepSort.bugGraph 1 3 = true ∧
    ((DepSort.sortMany 8 DepSort.bugGraph [0] []).1.getD 0
        DepSort.dfltNode).deps =
      [{ elem := 1, depType := .build },
       { elem := 2, depType := .build },
       { elem := 3, depType := .build }] := by
  constructor
  · decide
  · decide

namespace CasDir

/-!
## C8 and C5: `CasBasedDirectory`
(`buildstream/storage/_casbaseddirectory.py`)

The Merkle tree is modelled by `Tree`: the three repeated fields of the
protobuf `Directory` message, each *in list order* (protobuf
serialization preserves the order of a repeated field, and serializes
the three fields one after the other, so two `Directory` messages have
byte-identical serializations — and hence equal SHA-256 digests, hashes
being modelled injectively — exactly when the three ordered lists agree
recursively).  File contents are abstracted by an object id `ℕ` (the
file's digest).  A `CasBasedDirectory` object is a position inside a
root tree: the chain of `parent` pointers is the path from the root, so
`find_root` is the empty path and `.parent` drops the last component.
-/

/-- A protobuf `FileNode`. -/
structure FileNode where
  name : String
  contentHash : ℕ
  isExecutable : Bool
  deriving DecidableEq, Repr

/-- A protobuf `SymlinkNode`. -/
structure SymlinkNode where
  name : String
  target : String
  deriving DecidableEq, Repr

/-- A directory: the `files`, `directories` and `symlinks` lists of the
pb2 `Directory`, in insertion order; each `DirectoryNode`'s digest is
represented by the subtree itself. -/
inductive Tree where
  | mk (files : List FileNode) (dirs : List (String × Tree))
       (symlinks : List SymlinkNode)

/-- The files list. -/
def Tree.files : Tree → List FileNode
  | .mk fs _ _ => fs

/-- The directories list. -/
def Tree.dirs : Tree → List (String × Tree)
  | .mk _ ds _ => ds

/-- The symlinks list. -/
def Tree.symlinks : Tree → List SymlinkNode
  | .mk _ _ ss => ss

/-- Structural (= serialized-bytes, = digest) equality of trees. -/
def treeBeq : Tree → Tree → Bool
  | .mk fs ds ss, .mk fs' ds' ss' =>
    fs = fs' && ss = ss' && dirListBeq ds ds'
where
  dirListBeq : List (String × Tree) → List (String × Tree) → Bool
    | [], [] => true
    | (n, t) :: rest, (n', t') :: rest' =>
      n = n' && treeBeq t t' && dirListBeq rest rest'
    | _, _ => false

/-- The empty directory. -/
def emptyTree : Tree := .mk [] [] []

/-- What a name resolves to in a directory's `index`.  Names are unique
in well-formed directories (`_verify_unique`); on duplicates the last
inserted kind wins, as in the `OrderedDict` population order
(directories, then files, then symlinks). -/
inductive Entry where
  | dir (t : Tree)
  | file (f : FileNode)
  | symlink (s : SymlinkNode)

/-- `name in self.index` / `self.index[name]`. -/
def Tree.lookup (t : Tree) (name : String) : Option Entry :=
  match t.symlinks.find? (fun s => s.name = name) with
  | some s => some (.symlink s)
  | none =>
    match t.files.find? (fun f => f.name = name) with
    | some f => some (.file f)
    | none =>
      match t.dirs.find? (fun p => p.1 = name) with
      | some p => some (.dir p.2)
      | none => none

/-- The subtree at a path from the root (`none` when the path does not
denote an existing directory). -/
def subtreeAt : Tree → List String → Option Tree
  | t, [] => some t
  | t, c :: cs =>
    match t.dirs.find? (fun p => p.1 = c) with
    | some p => subtreeAt p.2 cs
    | none => none

/-- `self.parent`: `[]` (the root) has no parent; the source guards
`.parent` accesses with `is not None`, and the walk stays at the root. -/
def parentPath : List String → List String
  | [] => []
  | p => p.dropLast

/-- `symlink.target.startswith(CasBasedDirectory._pb2_absolute_path_prefix)`. -/
def targetIsAbsolute (target : String) : Bool :=
  match target.toList with
  | '/' :: _ => true
  | [] => false
  | _ :: _ => false

/-- `symlink.target.split(CasBasedDirectory._pb2_path_sep)`. -/
def splitTarget (target : String) : List String :=
  (Clean.splitOnChar '/' target.toList).map String.mk

/-- Errors raised while resolving. -/
inductive RErr where
  | reachedFile (name : String)  -- VirtualDirectoryError("Reached a file called ...")
  | invalidPosition              -- walking from a position not in the tree
  | outOfFuel
  deriving DecidableEq, Repr

/-- What `_resolve` returns: a `CasBasedDirectory` (a position in the
tree), a `FileNode`, or `None`. -/
inductive Resolved where
  | dir (path : List String)
  | file (f : FileNode)
  deriving DecidableEq, Repr

/-- A pending call: `res cwd name flag` is
`directory(cwd)._resolve(name, absolute_symlinks_resolve=flag)`, and
`walk cwd components flag` is the `while True` component walk of
`_resolve` with current directory `cwd`. -/
inductive RCall where
  | res (cwd : List String) (name : String) (flag : Bool)
  | walk (cwd : List String) (components : List String) (flag : Bool)

/-- Shallow embedding of `CasBasedDirectory._resolve` (lines 371-438):
a fuel-indexed interpreter for the mutual recursion between `_resolve`
and its component walk. -/
def resolveGo (root : Tree) : ℕ → RCall → Except RErr (Option Resolved)
  | 0, _ => .error .outOfFuel
  | fuel + 1, .res cwd name flag =>
    match subtreeAt root cwd with
    | none => .error .invalidPosition
    | some cur =>
      match cur.lookup name with
      | none => .ok none
      | some (.dir _) => .ok (some (.dir (cwd ++ [name])))
      | some (.file f) => .ok (some (.file f))
      | some (.symlink s) =>
        -- symlink branch of `_resolve`: absolute targets re-root (or
        -- return None when `absolute_symlinks_resolve` is off),
        -- relative targets walk from the current directory
        let components := splitTarget s.target
        if targetIsAbsolute s.target then
          if flag then resolveGo root fuel (.walk [] (components.drop 1) flag)
          else .ok none
        else resolveGo root fuel (.walk cwd components flag)
  | fuel + 1, .walk cwd components flag =>
    match components with
    | [] => .ok (some (.dir cwd))
    | c :: cs =>
      if c = "." then resolveGo root fuel (.walk cwd cs flag)
      else if c = ".." then resolveGo root fuel (.walk (parentPath cwd) cs flag)
      else
        match subtreeAt root cwd with
        | none => .error .invalidPosition
        | some cur =>
          if (cur.lookup c).isSome then
            match resolveGo root fuel (.res cwd c flag) with
            | .error e => .error e
            | .ok (some (.dir p)) => resolveGo root fuel (.walk p cs flag)
            | .ok other =>
              -- a file or a broken symlink
              if cs.isEmpty then .ok other
              else .error (.reachedFile c)
          else .ok none

/-- `directory._resolve(name, absolute_symlinks_resolve=flag)` from the
directory at `cwd`, with fuel for the nested symlink resolutions. -/
def resolve (root : Tree) (fuel : ℕ) (cwd : List String) (name : String)
    (flag : Bool) : Except RErr (Option Resolved) :=
  resolveGo root fuel (.res cwd name flag)

end CasDir

/-- C8: `CasBasedDirectory._resolve` walks a symlink target component
by component: when absolute-symlink resolution is disabled, a
`/`-prefixed target returns unresolved (`None`); when enabled, a
`/`-prefixed target restarts the walk at the tree root (with the first,
empty component discarded); and a `..` component encountered while at
the root yields the root itself rather than failing. -/
theorem casdir_resolve_symlink_spec :
    (∀ (root : CasDir.Tree) (fuel : ℕ) (cwd : List String) (name : String)
        (cur : CasDir.Tree) (s : CasDir.SymlinkNode),
      CasDir.subtreeAt root cwd = some cur →
      cur.lookup name = some (.symlink s) →
      CasDir.targetIsAbsolute s.target = true →
      CasDir.resolve root (fuel + 1) cwd name false = .ok none) ∧
    (∀ (root : CasDir.Tree) (fuel : ℕ) (cwd : List String) (name : String)
        (cur : CasDir.Tree) (s : CasDir.SymlinkNode),
      CasDir.subtreeAt root cwd = some cur →
      cur.lookup name = some (.symlink s) →
      CasDir.targetIsAbsolute s.target = true →
      CasDir.resolve root (fuel + 1) cwd name true =
        CasDir.resolveGo root fuel
          (.walk [] ((CasDir.splitTarget s.target).drop 1) true)) ∧
    (∀ (root : CasDir.Tree) (fuel : ℕ) (cs : List String) (flag : Bool),
      CasDir.resolveGo root (fuel + 1) (.walk [] (".." :: cs) flag) =
        CasDir.resolveGo root fuel (.walk [] cs flag)) ∧
    (∀ (root : CasDir.Tree) (fuel : ℕ) (flag : Bool),
      CasDir.resolveGo root (fuel + 2) (.walk [] [".."] flag) =
        .ok (some (.dir []))) := by
  refine ⟨?_, ?_, ?_, ?_⟩
  · intro root fuel cwd name cur s hsub hlook habs
    simp [CasDir.resolve, CasDir.resolveGo, hsub, hlook, habs]
  · intro root fuel cwd name cur s hsub hlook habs
    simp [CasDir.resolve, CasDir.resolveGo, hsub, hlook, habs]
  · intro root fuel cs flag
    simp [CasDir.resolveGo, CasDir.parentPath]
  · intro root fuel flag
    simp [CasDir.resolveGo, CasDir.parentPath]

/-- A small tree for the C8 witness: a file `f`, a subdirectory `d`,
an absolute symlink `s -> /d` and a relative symlink `up -> ..`. -/
def casdirExampleTree : CasDir.Tree :=
  .mk [{ name := "f", contentHash := 7, isExecutable := false }]
     [("d", .mk [] [] [])]
     [{ name := "s", target := "/d" }, { name := "up", target := ".." }]

/-- Witness for C8: on the example tree, the absolute symlink `s` is
unresolved with the flag off, resolves to `d` from the root with the
flag on, and a `..` walked at the root yields the root. -/
theorem casdir_resolve_symlink_spec_witness :
    CasDir.resolve casdirExampleTree 10 [] "s" false = .ok none ∧
    CasDir.resolve casdirExampleTree 10 [] "s" true =
      CasDir.resolveGo casdirExampleTree 9
        (.walk [] ((CasDir.splitTarget "/d").drop 1) true) ∧
    CasDir.resolveGo casdirExampleTree 10 (.walk [] [".."] true) =
      .ok (some (.dir [])) := by
  refine ⟨?_, ?_, ?_⟩
  · exact casdir_resolve_symlink_spec.1 casdirExampleTree 9 [] "s"
      casdirExampleTree { name := "s", target := "/d" } rfl rfl rfl
  · exact casdir_resolve_symlink_spec.2.1 casdirExampleTree 9 [] "s"
      casdirExampleTree { name := "s", target := "/d" } rfl rfl rfl
  · exact casdir_resolve_symlink_spec.2.2.2 casdirExampleTree 8 true

namespace CasDir

/-!
### C5: `import_files` — direct CAS-to-CAS import vs round-trip via the
host file system
(`_casbaseddirectory.py`: `import_files` lines 739-824,
`_partial_import_cas_into_cas` lines 589-643,
`_import_files_from_directory` lines 489-522 with
`_import_directory_recursively` lines 476-487,
`_check_replacement` lines 443-474, `create_directory` lines 157-176,
`descend` lines 254-305, `_resolve_symlink_or_directory` lines 315-346,
`symlink_target_is_directory` lines 574-576,
`list_relative_paths` lines 948-983, `export_files` lines 838-888)

All mutating operations are modelled as functions on the *root* tree
together with the position (path) of the `CasBasedDirectory` object they
run on, since symlink walks can move anywhere in the tree;
`import_files` itself is modelled on a root-level destination (the
object it is invoked on is the root of its tree).

The host file system written by `export_files` is name-keyed: lookups
during the re-import never depend on any on-disk order, `safe_copy`
preserves file bytes (hence digests), `chmod` preserves the executable
bit and `os.symlink` preserves targets — so the exported directory is
faithfully represented by the exported tree itself (`exportFiles`).
Intermediate host-FS symlinks are not followed during the re-import
walk (`os.path.isdir`/`isfile` would follow them; no input evaluated
here contains one).
-/

/-- Errors raised during imports. -/
inductive IErr where
  | vdir (msg : String)          -- VirtualDirectoryError
  | keyError (name : String)     -- source_directory.index[f] missing
  | parentOfRoot                 -- `.parent` walked above the root
  | resolveErr (e : RErr)        -- raised inside `_resolve`
  | outOfFuel
  | mismatch (fileImported casImported : Tree)
      -- "Mismatch between file-imported result {} and cas-to-cas
      -- imported result {}" (carrying the two digests)

/-- `FileListResult` (`buildstream/utils.py`): the fields this module
reads and writes. -/
structure FileListResult where
  filesWritten : List String := []
  overwritten : List String := []
  ignored : List String := []

/-- `FileListResult.combine`. -/
def FileListResult.combine (a b : FileListResult) : FileListResult :=
  { filesWritten := a.filesWritten ++ b.filesWritten,
    overwritten := a.overwritten ++ b.overwritten,
    ignored := a.ignored ++ b.ignored }

/-- `os.path.join` for the relative paths built here (the right operand
is never absolute). -/
def pathJoin (a b : String) : String :=
  if a = "" then b else a ++ "/" ++ b

/-- Membership in a list of strings (kernel-reducible). -/
def elemStr (x : String) : List String → Bool
  | [] => false
  | y :: ys => if x = y then true else elemStr x ys

/-- Insert into a sorted list of strings (ascending, stable). -/
def insertSorted (x : String) : List String → List String
  | [] => [x]
  | y :: ys =>
    if DepSort.pyStrLt x.toList y.toList then x :: y :: ys
    else y :: insertSorted x ys

/-- Python `sorted()` on strings. -/
def pySortStrings (xs : List String) : List String :=
  xs.foldl (fun acc x => insertSorted x acc) []

/-- `str.startswith` on character lists. -/
def startsWithChars : List Char → List Char → Bool
  | [], _ => true
  | _ :: _, [] => false
  | p :: ps, c :: cs => if p = c then startsWithChars ps cs else false

/-- `CasBasedDirectory.files_in_subdir`: the members of `sorted_files`
under `dirname`, with the `dirname + os.sep` prefix removed. -/
def filesInSubdir (files : List String) (dirname : String) : List String :=
  let dn := dirname ++ "/"
  (files.filter fun f => startsWithChars dn.toList f.toList).map
    fun f => String.mk (f.toList.drop dn.length)

/-- Replace the subtree at `path` by `f` of itself (identity when the
path is missing, which no caller reaches). -/
def updateAt : Tree → List String → (Tree → Tree) → Tree
  | t, [], f => f t
  | .mk fs ds ss, c :: cs, f => .mk fs (updateDirs ds c cs f) ss
where
  updateDirs : List (String × Tree) → String → List String →
      (Tree → Tree) → List (String × Tree)
    | [], _, _, _ => []
    | (n, t) :: rest, c, cs, f =>
      if n = c then (n, updateAt t cs f) :: rest
      else (n, t) :: updateDirs rest c cs f

/-- `delete_entry`: remove `name` from the files, symlinks and
directories lists (and the index). -/
def deleteEntry (t : Tree) (name : String) : Tree :=
  .mk (t.files.filter fun f => f.name ≠ name)
     (t.dirs.filter fun p => p.1 ≠ name)
     (t.symlinks.filter fun s => s.name ≠ name)

/-- `self.pb2_directory.files.add(...)`: append a `FileNode`. -/
def addFileNode (t : Tree) (name : String) (contentHash : ℕ)
    (isExec : Bool) : Tree :=
  .mk (t.files ++ [{ name := name, contentHash := contentHash,
                     isExecutable := isExec }]) t.dirs t.symlinks

/-- `_add_new_link_direct` / `_add_new_link`: reuse an existing
`SymlinkNode` in place, else append a new one. -/
def addSymlinkNode (t : Tree) (name target : String) : Tree :=
  if (t.symlinks.find? fun s => s.name = name).isSome then
    .mk t.files t.dirs
       (t.symlinks.map fun s =>
         if s.name = name then { s with target := target } else s)
  else
    .mk t.files t.dirs (t.symlinks ++ [{ name := name, target := target }])

/-- `self.pb2_directory.directories.add()` with an empty new
directory. -/
def addDirNode (t : Tree) (name : String) : Tree :=
  .mk t.files (t.dirs ++ [(name, emptyTree)]) t.symlinks

/-- `is_empty`. -/
def Tree.isEmpty : Tree → Bool
  | .mk fs ds ss => fs.isEmpty && ds.isEmpty && ss.isEmpty

/-- `descend(subdirectory_spec, create)` from the directory at `pos`:
returns the updated root and the path of the reached directory. -/
def descend (root : Tree) (pos : List String) (spec : List String)
    (create : Bool) : Except IErr (Tree × List String) :=
  match spec with
  | [] => .ok (root, pos)
  | "" :: rest => descend root pos rest create
  | c :: rest =>
    match subtreeAt root pos with
    | none => .error (.vdir "invalid position")
    | some cur =>
      match cur.lookup c with
      | some (.dir _) => descend root (pos ++ [c]) rest create
      | some _ =>
        .error (.vdir ("Cannot descend into " ++ c ++
          ", which is not a directory"))
      | none =>
        if create then
          descend (updateAt root pos (fun t => addDirNode t c))
            (pos ++ [c]) rest create
        else
          .error (.vdir ("No entry called " ++ c ++ " found"))

/-- The component walk shared by `_resolve_symlink` and
`_resolve_symlink_or_directory`: `.` skipped, `..` moves to the parent
(the source would set `directory = None` above the root and crash on
the next access, modelled as an error), other components are descended
with `create=True`. -/
def symlinkWalk (root : Tree) (pos : List String) :
    List String → Except IErr (Tree × List String)
  | [] => .ok (root, pos)
  | c :: cs =>
    if c = "." then symlinkWalk root pos cs
    else if c = ".." then
      match pos with
      | [] => .error .parentOfRoot
      | _ => symlinkWalk root pos.dropLast cs
    else
      match descend root pos [c] true with
      | .error e => .error e
      | .ok (root', pos') => symlinkWalk root' pos' cs

/-- `_resolve_symlink(node)`: walk the target from the root (absolute)
or from this directory. -/
def resolveSymlinkCreate (root : Tree) (pos : List String)
    (s : SymlinkNode) : Except IErr (Tree × List String) :=
  let start := if targetIsAbsolute s.target then [] else pos
  symlinkWalk root start (splitTarget s.target)

/-- `symlink_target_is_directory`: `_resolve_symlink` only ever returns
a directory (or raises), so this is `true` on success; the probing walk
may create directories, so the updated root is returned too. -/
def symlinkTargetIsDirectory (root : Tree) (pos : List String)
    (s : SymlinkNode) : Except IErr (Tree × Bool) :=
  match resolveSymlinkCreate root pos s with
  | .error e => .error e
  | .ok (root', _) => .ok (root', true)

/-- `_resolve_symlink_or_directory(name)`: an existing directory is
returned as-is; a symlink is walked (creating missing targets). -/
def resolveSymlinkOrDirectory (root : Tree) (pos : List String)
    (name : String) : Except IErr (Tree × List String) :=
  match subtreeAt root pos with
  | none => .error (.vdir "invalid position")
  | some cur =>
    match cur.lookup name with
    | some (.dir _) => .ok (root, pos ++ [name])
    | some (.symlink s) => resolveSymlinkCreate root pos s
    | some (.file _) => .error (.vdir "entry is a file")
    | none => .error (.keyError name)

/-- `create_directory(name)` at `pos`; the returned directory object is
discarded by the import callers, so only the updated root is kept. -/
def createDirectory (root : Tree) (pos : List String) (name : String) :
    Except IErr Tree :=
  match subtreeAt root pos with
  | none => .error (.vdir "invalid position")
  | some cur =>
    match cur.lookup name with
    | some (.file _) =>
      -- Directory imported over file with same name
      match descend (updateAt root pos (fun t => deleteEntry t name))
          pos [name] true with
      | .error e => .error e
      | .ok (root', _) => .ok root'
    | some (.symlink s) =>
      match symlinkTargetIsDirectory root pos s with
      | .error e => .error e
      | .ok (root', isDir) =>
        if isDir then
          -- files in the source end up at the target of the symlink
          match resolveSymlinkOrDirectory root' pos name with
          | .error e => .error e
          | .ok (root'', _) => .ok root''
        else
          match descend (updateAt root' pos (fun t => deleteEntry t name))
              pos [name] true with
          | .error e => .error e
          | .ok (root'', _) => .ok root''
    | _ =>
      match descend root pos [name] true with
      | .error e => .error e
      | .ok (root', _) => .ok root'

/-- `_check_replacement(name, path_prefix, fileListResult)`: returns
the updated root (the entry may be deleted), the updated result lists
and whether the import may proceed. -/
def checkReplacement (root : Tree) (pos : List String) (name pathPre : String)
    (result : FileListResult) : Tree × FileListResult × Bool :=
  let rel := pathJoin pathPre name
  match (subtreeAt root pos).getD emptyTree |>.lookup name with
  | none => (root, result, true)
  | some (.file _) =>
    (updateAt root pos (fun t => deleteEntry t name),
     { result with overwritten := result.overwritten ++ [rel] }, true)
  | some (.symlink _) =>
    (updateAt root pos (fun t => deleteEntry t name),
     { result with overwritten := result.overwritten ++ [rel] }, true)
  | some (.dir sub) =>
    if sub.isEmpty then
      (updateAt root pos (fun t => deleteEntry t name),
       { result with overwritten := result.overwritten ++ [rel] }, true)
    else
      (root, { result with ignored := result.ignored ++ [rel] }, false)

end CasDir

namespace CasDir

/-- `_add_directory(name)`: reuse an existing subdirectory, refuse to
overwrite a non-directory, else append a new empty directory node. -/
def addDirectory (root : Tree) (pos : List String) (name : String) :
    Except IErr (Tree × List String) :=
  match subtreeAt root pos with
  | none => .error (.vdir "invalid position")
  | some cur =>
    match cur.lookup name with
    | some (.dir _) => .ok (root, pos ++ [name])
    | some _ =>
      .error (.vdir ("New directory " ++ name ++
        " would overwrite existing non-directory"))
    | none => .ok (updateAt root pos (fun t => addDirNode t name), pos ++ [name])

/-- Source-side `source_directory.descend(dirname)` (no creation). -/
def srcDescend (src : Tree) (dirname : String) : Except IErr Tree :=
  match src.lookup dirname with
  | some (.dir t) => .ok t
  | some _ =>
    .error (.vdir ("Cannot descend into " ++ dirname ++
      ", which is not a directory"))
  | none => .error (.vdir ("No entry called " ++ dirname ++ " found"))

/-- Shallow embedding of the `for f in files` loop of
`_partial_import_cas_into_cas`.  `allFiles` is the full `files`
argument of the enclosing call (`files_in_subdir` filters it), `rem`
the part of it still to process.  Fuel decreases on every step. -/
def partialImportGo : ℕ → Tree → List String → Tree → List String →
    List String → String → List String → FileListResult →
    Except IErr (Tree × FileListResult)
  | 0, _, _, _, _, _, _, _, _ => .error .outOfFuel
  | _ + 1, root, _, _, _, [], _, _, result => .ok (root, result)
  | fuel + 1, root, pos, src, allFiles, f :: rem, pathPre, processed, result =>
    if f = "." then
      partialImportGo fuel root pos src allFiles rem pathPre processed result
    else
      let fullname := pathJoin pathPre f
      let components := (Clean.splitOnChar '/' f.toList).map String.mk
      if components.length > 1 then
        let dirname := components.headD ""
        if elemStr dirname processed then
          partialImportGo fuel root pos src allFiles rem pathPre processed result
        else
          match createDirectory root pos dirname with
          | .error e => .error e
          | .ok root1 =>
            match resolveSymlinkOrDirectory root1 pos dirname with
            | .error e => .error e
            | .ok (root2, subpos) =>
              match srcDescend src dirname with
              | .error e => .error e
              | .ok srcSub =>
                let subcomponents := filesInSubdir allFiles dirname
                match partialImportGo fuel root2 subpos srcSub
                    subcomponents subcomponents fullname [] {} with
                | .error e => .error e
                | .ok (root3, subResult) =>
                  partialImportGo fuel root3 pos src allFiles rem pathPre
                    (dirname :: processed) (result.combine subResult)
      else
        match src.lookup f with
        | none => .error (.keyError f)
        | some (.dir _) =>
          -- a directory on its own: create or replace with a blank dir
          match createDirectory root pos f with
          | .error e => .error e
          | .ok root1 =>
            partialImportGo fuel root1 pos src allFiles rem pathPre
              processed result
        | some (.file fn) =>
          match checkReplacement root pos f pathPre result with
          | (root1, result1, importable) =>
            if importable then
              partialImportGo fuel
                (updateAt root1 pos fun t =>
                  addFileNode t f fn.contentHash fn.isExecutable)
                pos src allFiles rem pathPre processed result1
            else
              partialImportGo fuel root1 pos src allFiles rem pathPre
                processed result1
        | some (.symlink s) =>
          match checkReplacement root pos f pathPre result with
          | (root1, result1, importable) =>
            if importable then
              partialImportGo fuel
                (updateAt root1 pos fun t => addSymlinkNode t f s.target)
                pos src allFiles rem pathPre processed result1
            else
              partialImportGo fuel root1 pos src allFiles rem pathPre
                processed result1

/-- The host-FS entry at a path (intermediate symlinks not followed;
see the section comment). -/
def fsEntryAt (fs : Tree) : List String → Option Entry
  | [] => some (.dir fs)
  | c :: cs =>
    match fs.lookup c with
    | some (.dir t) => fsEntryAt t cs
    | some e => if cs.isEmpty then some e else none
    | none => none

/-- Shallow embedding of the `for entry in sorted(files)` loop of
`_import_files_from_directory`, alternating with
`_import_directory_recursively` for multi-component paths.  `srcPos` is
the path of `source_directory` inside the exported tree `fs`. -/
def importFSGo : ℕ → Tree → List String → Tree → List String →
    List String → String → FileListResult →
    Except IErr (Tree × FileListResult)
  | 0, _, _, _, _, _, _, _ => .error .outOfFuel
  | _ + 1, root, _, _, _, [], _, result => .ok (root, result)
  | fuel + 1, root, pos, fs, srcPos, entry :: rem, pathPre, result =>
    let split := (Clean.splitOnChar '/' entry.toList).map String.mk
    let rel := pathJoin pathPre entry
    if split.length > 1 then
      -- _import_directory_recursively, one file at a time
      let dirname := split.headD ""
      let step : Except IErr (Tree × List String) :=
        if ((subtreeAt root pos).getD emptyTree |>.lookup dirname).isSome then
          resolveSymlinkOrDirectory root pos dirname
        else
          addDirectory root pos dirname
      match step with
      | .error e => .error e
      | .ok (root1, subpos) =>
        match importFSGo fuel root1 subpos fs (srcPos ++ [dirname])
            [String.intercalate "/" (split.drop 1)]
            (pathJoin pathPre dirname) {} with
        | .error e => .error e
        | .ok (root2, subResult) =>
          importFSGo fuel root2 pos fs srcPos rem pathPre
            (result.combine subResult)
    else
      match fsEntryAt fs (srcPos ++ [entry]) with
      | some (.symlink s) =>
        match checkReplacement root pos entry pathPre result with
        | (root1, result1, importable) =>
          if importable then
            importFSGo fuel
              (updateAt root1 pos fun t => addSymlinkNode t entry s.target)
              pos fs srcPos rem pathPre
              { result1 with filesWritten := result1.filesWritten ++ [rel] }
          else
            importFSGo fuel root1 pos fs srcPos rem pathPre result1
      | some (.dir _) =>
        -- a plain directory which already exists is ignored
        if ((subtreeAt root pos).getD emptyTree |>.lookup entry).isSome then
          importFSGo fuel root pos fs srcPos rem pathPre result
        else
          match addDirectory root pos entry with
          | .error e => .error e
          | .ok (root1, _) =>
            importFSGo fuel root1 pos fs srcPos rem pathPre result
      | some (.file fn) =>
        match checkReplacement root pos entry pathPre result with
        | (root1, result1, importable) =>
          if importable then
            importFSGo fuel
              (updateAt root1 pos fun t =>
                addFileNode t entry fn.contentHash fn.isExecutable)
              pos fs srcPos rem pathPre
              { result1 with filesWritten := result1.filesWritten ++ [rel] }
          else
            importFSGo fuel root1 pos fs srcPos rem pathPre result1
      | none =>
        -- nothing at that path on the file system: silently skipped
        importFSGo fuel root pos fs srcPos rem pathPre result

/-- `_import_files_from_directory(source_directory, files, path_prefix)`:
sorts the list, then runs the loop. -/
def importFilesFromDirectory (fuel : ℕ) (root : Tree) (pos : List String)
    (fs : Tree) (srcPos : List String) (files : List String)
    (pathPre : String) : Except IErr (Tree × FileListResult) :=
  importFSGo fuel root pos fs srcPos (pySortStrings files) pathPre {}

end CasDir

namespace CasDir

/-- Classify the (sorted) symlink names of a directory through
`self._resolve(k, absolute_symlinks_resolve=True)`: names resolving to
directories versus the rest ("broken symlinks are also considered
files"). -/
def classifySymlinks (root : Tree) (fuel : ℕ) (pos : List String) :
    List String → Except RErr (List String × List String)
  | [] => .ok ([], [])
  | k :: ks =>
    match resolveGo root fuel (.res pos k true) with
    | .error e => .error e
    | .ok r =>
      match classifySymlinks root fuel pos ks with
      | .error e => .error e
      | .ok (ds, fls) =>
        match r with
        | some (.dir _) => .ok (k :: ds, fls)
        | _ => .ok (ds, k :: fls)

/-- A pending `list_relative_paths` computation: one directory, or the
sorted subdirectory names still to recurse into. -/
inductive LCall where
  | one (pos : List String) (relpath : String)
  | many (ds : List String) (pos : List String) (relpath : String)

/-- Shallow embedding of `CasBasedDirectory.list_relative_paths`:
sorted symlinks-to-directories first, then the file names (files plus
symlinks that do not resolve to directories) — or the bare `relpath`
when there are none and `relpath` is not empty — then each sorted
subdirectory recursively. -/
def listRelCasGo (root : Tree) : ℕ → LCall → Except RErr (List String)
  | 0, _ => .error .outOfFuel
  | fuel + 1, .one pos relpath =>
    match subtreeAt root pos with
    | none => .error .invalidPosition
    | some cur =>
      match classifySymlinks root fuel pos
          (pySortStrings (cur.symlinks.map (·.name))) with
      | .error e => .error e
      | .ok (symDirs, symFiles) =>
        let fileAll := cur.files.map (·.name) ++ symFiles
        let part1 := (pySortStrings symDirs).map (pathJoin relpath)
        let part2 :=
          if fileAll.isEmpty ∧ ¬ relpath = "" then [relpath]
          else (pySortStrings fileAll).map (pathJoin relpath)
        match listRelCasGo root fuel
            (.many (pySortStrings (cur.dirs.map (·.1))) pos relpath) with
        | .error e => .error e
        | .ok part3 => .ok (part1 ++ part2 ++ part3)
  | _ + 1, .many [] _ _ => .ok []
  | fuel + 1, .many (d :: ds) pos relpath =>
    match listRelCasGo root fuel (.one (pos ++ [d]) (pathJoin relpath d)) with
    | .error e => .error e
    | .ok l1 =>
      match listRelCasGo root fuel (.many ds pos relpath) with
      | .error e => .error e
      | .ok l2 => .ok (l1 ++ l2)

/-- Modelled from the spec: `utils.list_relative_paths` (in
`buildstream/utils.py`, which is not part of the sources) enumerates
the relative path of every directory, file and symlink in the exported
tree; its order is irrelevant here because
`_import_files_from_directory` sorts its file list (the source notes
only that the CAS listing "is not in the same order as
utils.list_relative_paths"). -/
def listRelativePathsHost : Tree → String → List String
  | .mk fsl ds ss, rel =>
    hostDirs ds rel ++ fsl.map (fun f => pathJoin rel f.name) ++
      ss.map (fun s => pathJoin rel s.name)
where
  hostDirs : List (String × Tree) → String → List String
    | [], _ => []
    | (n, t) :: rest, rel =>
      (pathJoin rel n :: listRelativePathsHost t (pathJoin rel n)) ++
        hostDirs rest rel

/-- Duplicate-name check of a string list. -/
def hasDupStr : List String → Bool
  | [] => false
  | x :: xs => elemStr x xs || hasDupStr xs

/-- `_verify_unique`: no duplicate names within a directory (across
files, directories and symlinks), recursively. -/
def verifyUnique : Tree → Bool
  | .mk fsl ds ss =>
    !hasDupStr (fsl.map (·.name) ++ ds.map (·.1) ++ ss.map (·.name)) &&
      verifyDirs ds
where
  verifyDirs : List (String × Tree) → Bool
    | [] => true
    | (_, t) :: rest => verifyUnique t && verifyDirs rest

/-- `export_files(to_directory)`: the exported host directory is
name-keyed and preserves file bytes (hence digests), executable bits
and symlink targets, so it is faithfully represented by the exported
tree itself. -/
def exportFiles (t : Tree) : Tree := t

/-- `_import_cas_into_cas(source_directory, files)`: a `None` file list
is replaced by the source's own `list_relative_paths()`, then the
partial import runs from this directory. -/
def importCasIntoCas (fuel : ℕ) (dest : Tree) (src : Tree)
    (files : Option (List String)) : Except IErr (Tree × FileListResult) :=
  match files with
  | some fl => partialImportGo fuel dest [] src fl fl "" [] {}
  | none =>
    match listRelCasGo src fuel (.one [] "") with
    | .error e => .error (.resolveErr e)
    | .ok fl => partialImportGo fuel dest [] src fl fl "" [] {}

/-- Shallow embedding of `CasBasedDirectory.import_files` for a
CAS-directory source (`self` taken at the root of its tree): the direct
CAS-to-CAS import runs on `self`, the same tree is re-imported from an
export of the source through the host file system into a duplicate of
`self`, and the two resulting root digests are compared — a difference
raises the `VirtualDirectoryError` mismatch.  The
`_recalculate_recursing_down`/`_recalculate_recursing_up` calls only
re-store digests, which the tree model carries implicitly. -/
def importFiles (fuel : ℕ) (dest : Tree) (src : Tree)
    (files : Option (List String)) : Except IErr (Tree × FileListResult) :=
  if !verifyUnique dest then .error (.vdir "Duplicate entry") else
  -- duplicate_cas := reparse of self.ref (identical tree); direct import:
  match importCasIntoCas fuel dest src files with
  | .error e => .error e
  | .ok (t1, result) =>
    if !verifyUnique t1 then .error (.vdir "Duplicate entry") else
    -- round-trip: export the source, re-import into the duplicate
    let fs := exportFiles src
    let rtFiles :=
      match files with
      | some fl => fl
      | none => listRelativePathsHost fs ""
    match importFilesFromDirectory fuel dest [] fs [] rtFiles "" with
    | .error e => .error e
    | .ok (t2, _) =>
      if treeBeq t2 t1 then .ok (t1, result)
      else .error (.mismatch t2 t1)

/-- The failing-input source: a flat directory with plain files `a`
and `b`. -/
def srcAB : Tree :=
  .mk [{ name := "a", contentHash := 1, isExecutable := false },
      { name := "b", contentHash := 2, isExecutable := false }] [] []

end CasDir

/-- C5 (failing-input evaluation): importing the flat CAS source
`{a, b}` into an empty destination with the explicit file list
`["b", "a"]` reaches the mismatch branch: the direct CAS-to-CAS import
appends the `FileNode`s in the given order (`b` then `a`), while the
round-trip import through the exported file system sorts the list and
appends `a` then `b`; the two serialized `Directory` messages therefore
differ, their digests differ, and `import_files` raises
`VirtualDirectoryError` instead of the two root hashes being
byte-identical. -/
theorem import_files_roundtrip_counterexample :
    CasDir.importFiles 32 CasDir.emptyTree CasDir.srcAB (some ["b", "a"]) =
      .error (.mismatch
        (.mk [{ name := "a", contentHash := 1, isExecutable := false },
             { name := "b", contentHash := 2, isExecutable := false }] [] [])
        (.mk [{ name := "b", contentHash := 2, isExecutable := false },
             { name := "a", contentHash := 1, isExecutable := false }] [] [])) :=
  rfl

namespace CircDeps

/-!
## C4: `Loader._check_circular_deps`
(`buildstream/_loader/loader.py`, lines 288-321)

Elements are ids `ℕ` with dependency edges `deps : ℕ → List ℕ` (the
`dep.element` targets, in order) and full names `nm : ℕ → String`
(`LoadElement.full_name`, from the absent `loadelement.py`; the check
only reads it when building the failure message).  The three pieces of
mutable state are passed explicitly: `check` is `check_elements` as a
stack (newest first), `validated` grows monotonically (newest first),
`seq` is `sequence` in append order.  `load()` (lines 121-130) runs the
check on a dummy element depending on every target.
-/

/-- The dependency edge relation. -/
def edgeOf (deps : ℕ → List ℕ) (a b : ℕ) : Prop := b ∈ deps a

/-- Errors of the fueled interpreter: the raised
`LoadError(CIRCULAR_DEPENDENCY, ...)`, or fuel exhaustion (excluded by
`checkGo_no_fuel_error` below). -/
inductive CErr where
  | outOfFuel
  | loadError (e : LoadError)
  deriving DecidableEq, Repr

/-- Python `sequence.index(x)`: index of the first occurrence. -/
def idxOf (x : String) : List String → ℕ
  | [] => 0
  | y :: ys => if y = x then 0 else idxOf x ys + 1

/-- A pending call: `one e` is `_check_circular_deps(e, ...)`, `many ds`
the `for dep in element.dependencies` loop over the remaining deps. -/
inductive CCall where
  | one (e : ℕ)
  | many (ds : List ℕ)

/-- Shallow embedding of `Loader._check_circular_deps`: skip validated
branches; a gray (`check`) hit raises `CIRCULAR_DEPENDENCY` with the
chain sliced from the first occurrence of the element's full name in
`sequence` and that name appended; otherwise push, check every
dependency, pop, and mark validated.  (Push/pop of `check_elements` and
`sequence` is expressed by passing the extended lists to the
dependency loop only.) -/
def checkGo (deps : ℕ → List ℕ) (nm : ℕ → String) :
    ℕ → CCall → List ℕ → List ℕ → List String → Except CErr (List ℕ)
  | 0, _, _, _, _ => .error .outOfFuel
  | fuel + 1, .one e, check, validated, seq =>
    if e ∈ validated then .ok validated
    else if e ∈ check then
      .error (.loadError
        { reason := .circularDependency,
          message := "Circular dependency detected at element: " ++ nm e ++
            "\nDependency chain: " ++
            String.intercalate " -> "
              (seq.drop (idxOf (nm e) seq) ++ [nm e]) })
    else
      match checkGo deps nm fuel (.many (deps e)) (e :: check) validated
          (seq ++ [nm e]) with
      | .error err => .error err
      | .ok v => .ok (e :: v)
  | _ + 1, .many [], _, validated, _ => .ok validated
  | fuel + 1, .many (d :: ds), check, validated, seq =>
    match checkGo deps nm fuel (.one d) check validated seq with
    | .error err => .error err
    | .ok v => checkGo deps nm fuel (.many ds) check v seq

/-- The largest dependency-list length over the graph's nodes. -/
def maxDeg (deps : ℕ → List ℕ) (nodes : List ℕ) : ℕ :=
  (nodes.map fun x => (deps x).length).foldr Nat.max 0

/-- `loader._check_circular_deps(start)` with fuel ample for any graph
whose nodes are listed in `nodes` (proved in
`checkGo_no_fuel_error`). -/
def checkCircularDeps (deps : ℕ → List ℕ) (nm : ℕ → String)
    (nodes : List ℕ) (s : ℕ) : Except CErr (List ℕ) :=
  checkGo deps nm ((nodes.length + 1) * (maxDeg deps nodes + 2))
    (.one s) [] [] []

/-- The S5 graph: a dummy target (0, empty name, per `load()`'s dummy
element) depending on X (1); X→Y (2) →Z (3) →X. -/
def exDeps : ℕ → List ℕ
  | 0 => [1]
  | 1 => [2]
  | 2 => [3]
  | 3 => [1]
  | _ => []

/-- Full names for the S5 graph. -/
def exNm : ℕ → String
  | 1 => "X"
  | 2 => "Y"
  | 3 => "Z"
  | _ => ""

end CircDeps

namespace CircDeps

theorem checkGo_error_form (deps : ℕ → List ℕ) (nm : ℕ → String) :
    ∀ (fuel : ℕ) (call : CCall) (check validated : List ℕ)
      (seq : List String) (err : CErr),
      checkGo deps nm fuel call check validated seq = .error err →
      err = .outOfFuel ∨
      ∃ msg, err = .loadError { reason := .circularDependency, message := msg } := by
  intro fuel
  induction fuel with
  | zero =>
    intro call check validated seq err h
    cases call <;> (cases h; exact Or.inl rfl)
  | succ fuel ih =>
    intro call check validated seq err h
    cases call with
    | one e =>
      simp only [checkGo] at h
      split at h
      · cases h
      split at h
      · cases h
        exact Or.inr ⟨_, rfl⟩
      · cases hrec : checkGo deps nm fuel (.many (deps e)) (e :: check)
            validated (seq ++ [nm e]) with
        | error err' =>
          rw [hrec] at h
          cases h
          exact ih _ _ _ _ _ hrec
        | ok v =>
          rw [hrec] at h
          cases h
    | many ds =>
      cases ds with
      | nil => cases h
      | cons d rest =>
        simp only [checkGo] at h
        cases hrec : checkGo deps nm fuel (.one d) check validated seq with
        | error err' =>
          rw [hrec] at h
          cases h
          exact ih _ _ _ _ _ hrec
        | ok v =>
          rw [hrec] at h
          exact ih _ _ _ _ _ h

theorem length_le_maxDeg (deps : ℕ → List ℕ) :
    ∀ (nodes : List ℕ) (x : ℕ), x ∈ nodes →
      (deps x).length ≤ maxDeg deps nodes := by
  intro nodes
  induction nodes with
  | nil => intro x hx; cases hx
  | cons n rest ih =>
    intro x hx
    rcases List.mem_cons.mp hx with rfl | hx
    · exact le_max_left _ _
    · exact le_trans (ih x hx) (le_max_right _ _)

theorem checkGo_no_fuel_error (deps : ℕ → List ℕ) (nm : ℕ → String)
    (nodes : List ℕ)
    (hclosed : ∀ x ∈ nodes, ∀ d ∈ deps x, d ∈ nodes) :
    ∀ (fuel : ℕ) (call : CCall) (check validated : List ℕ)
      (seq : List String),
      check.Nodup → (∀ c ∈ check, c ∈ nodes) →
      (match call with
       | .one e => e ∈ nodes ∧
           (nodes.length - check.length) * (maxDeg deps nodes + 2) + 1 ≤ fuel
       | .many ds => (∀ d ∈ ds, d ∈ nodes) ∧
           (nodes.length - check.length) * (maxDeg deps nodes + 2) + 1 +
             ds.length ≤ fuel) →
      checkGo deps nm fuel call check validated seq ≠ .error .outOfFuel := by
  intro fuel
  induction fuel with
  | zero =>
    intro call check validated seq _ _ hcall
    cases call <;> omega
  | succ fuel ih =>
    intro call check validated seq hnd hsub hcall
    cases call with
    | one e =>
      obtain ⟨he, hfuel⟩ := hcall
      simp only [checkGo]
      split
      · intro h; cases h
      split
      · intro h; cases h
      · next hval hchk =>
        cases hrec : checkGo deps nm fuel (.many (deps e)) (e :: check)
            validated (seq ++ [nm e]) with
        | ok v => intro h; cases h
        | error err =>
          intro h
          cases h
          refine ih (.many (deps e)) (e :: check) validated (seq ++ [nm e])
            (List.nodup_cons.mpr ⟨hchk, hnd⟩)
            (by intro c hc
                rcases List.mem_cons.mp hc with rfl | hc
                · exact he
                · exact hsub c hc) ⟨hclosed e he, ?_⟩ hrec
          -- fuel accounting
          have hlen : check.length + 1 ≤ nodes.length := by
            have : (e :: check).Nodup := List.nodup_cons.mpr ⟨hchk, hnd⟩
            have hsub' : e :: check ⊆ nodes := by
              intro c hc
              rcases List.mem_cons.mp hc with rfl | hc
              · exact he
              · exact hsub c hc
            simpa using (List.subperm_of_subset this hsub').length_le
          have hdeg : (deps e).length ≤ maxDeg deps nodes :=
            length_le_maxDeg deps nodes e he
          have hsplit : (nodes.length - check.length) *
              (maxDeg deps nodes + 2) =
              (nodes.length - (check.length + 1)) * (maxDeg deps nodes + 2) +
              (maxDeg deps nodes + 2) := by
            have : nodes.length - check.length =
                (nodes.length - (check.length + 1)) + 1 := by omega
            rw [this, Nat.succ_mul]
          simp only [List.length_cons]
          omega
    | many ds =>
      cases ds with
      | nil =>
        simp only [checkGo]
        intro h; cases h
      | cons d rest =>
        obtain ⟨hds, hfuel⟩ := hcall
        simp only [checkGo]
        cases hrec : checkGo deps nm fuel (.one d) check validated seq with
        | error err =>
          intro h
          cases h
          exact ih (.one d) check validated seq hnd hsub
            ⟨hds d (List.mem_cons_self _ _), by
              simp only [List.length_cons] at hfuel; omega⟩ hrec
        | ok v =>
          intro h
          exact ih (.many rest) check v seq hnd hsub
            ⟨fun x hx => hds x (List.mem_cons_of_mem _ hx), by
              simp only [List.length_cons] at hfuel; omega⟩ h
end CircDeps

namespace CircDeps

/-- The invariant linking `check_elements` (newest first) to the
current element: each stack entry depends on the element pushed above
it. -/
def StackInv (deps : ℕ → List ℕ) : List ℕ → ℕ → Prop
  | [], _ => True
  | c :: rest, e => edgeOf deps c e ∧ StackInv deps rest c

theorem stackInv_transGen (deps : ℕ → List ℕ) :
    ∀ (check : List ℕ) (e : ℕ), StackInv deps check e →
      ∀ x ∈ check, Relation.TransGen (edgeOf deps) x e := by
  intro check
  induction check with
  | nil => intro e _ x hx; cases hx
  | cons c rest ih =>
    intro e hinv x hx
    obtain ⟨hedge, hrest⟩ := hinv
    rcases List.mem_cons.mp hx with rfl | hx
    · exact Relation.TransGen.single hedge
    · exact (ih c hrest x hx).tail hedge

theorem checkGo_sound (deps : ℕ → List ℕ) (nm : ℕ → String) (s : ℕ) :
    ∀ (fuel : ℕ) (call : CCall) (check validated : List ℕ)
      (seq : List String) (l : LoadError),
      (∀ c ∈ check, Relation.ReflTransGen (edgeOf deps) s c) →
      (match call with
       | .one e => StackInv deps check e ∧
           Relation.ReflTransGen (edgeOf deps) s e
       | .many ds => ∃ c rest, check = c :: rest ∧ StackInv deps rest c ∧
           ∀ d ∈ ds, edgeOf deps c d) →
      checkGo deps nm fuel call check validated seq = .error (.loadError l) →
      ∃ x, Relation.ReflTransGen (edgeOf deps) s x ∧
        Relation.TransGen (edgeOf deps) x x := by
  intro fuel
  induction fuel with
  | zero =>
    intro call check validated seq l _ _ h
    cases call <;> cases h
  | succ fuel ih =>
    intro call check validated seq l hreach hcall h
    cases call with
    | one e =>
      obtain ⟨hstk, hre⟩ := hcall
      simp only [checkGo] at h
      split at h
      · cases h
      split at h
      · -- gray hit: the stack from e up to the top closes a cycle
        next hchk =>
        exact ⟨e, hre, stackInv_transGen deps check e hstk e hchk⟩
      · next hval hchk =>
        cases hrec : checkGo deps nm fuel (.many (deps e)) (e :: check)
            validated (seq ++ [nm e]) with
        | error err =>
          rw [hrec] at h
          cases h
          refine ih (.many (deps e)) (e :: check) validated (seq ++ [nm e])
            l ?_ ⟨e, check, rfl, hstk, ?_⟩ hrec
          · intro c hc
            rcases List.mem_cons.mp hc with rfl | hc
            · exact hre
            · exact hreach c hc
          · intro d hd
            exact hd
        | ok v =>
          rw [hrec] at h
          cases h
    | many ds =>
      cases ds with
      | nil => cases h
      | cons d rest =>
        obtain ⟨c, crest, hcheq, hstk, hedges⟩ := hcall
        simp only [checkGo] at h
        have hreach_d : Relation.ReflTransGen (edgeOf deps) s d := by
          refine Relation.ReflTransGen.tail ?_ (hedges d (List.mem_cons_self _ _))
          exact hreach c (hcheq ▸ List.mem_cons_self _ _)
        cases hrec : checkGo deps nm fuel (.one d) check validated seq with
        | error err =>
          rw [hrec] at h
          cases h
          refine ih (.one d) check validated seq l hreach ?_ hrec
          refine ⟨?_, hreach_d⟩
          rw [hcheq]
          exact ⟨hedges d (List.mem_cons_self _ _), hstk⟩
        | ok v =>
          rw [hrec] at h
          exact ih (.many rest) check v seq l hreach
            ⟨c, crest, hcheq, hstk,
             fun x hx => hedges x (List.mem_cons_of_mem _ hx)⟩ h

/-- Reverse topological (finish) order: every element's dependencies
occur strictly later in the list. -/
def TopOrd (deps : ℕ → List ℕ) : List ℕ → Prop
  | [] => True
  | u :: rest => (∀ d ∈ deps u, d ∈ rest) ∧ TopOrd deps rest

theorem topOrd_closed (deps : ℕ → List ℕ) :
    ∀ (L : List ℕ), TopOrd deps L → ∀ u ∈ L, ∀ d ∈ deps u, d ∈ L := by
  intro L
  induction L with
  | nil => intro _ u hu; cases hu
  | cons a rest ih =>
    intro hord u hu d hd
    obtain ⟨ha, hrest⟩ := hord
    rcases List.mem_cons.mp hu with rfl | hu
    · exact List.mem_cons_of_mem _ (ha d hd)
    · exact List.mem_cons_of_mem _ (ih hrest u hu d hd)

theorem closed_reach (deps : ℕ → List ℕ) (L : List ℕ)
    (hclosed : ∀ u ∈ L, ∀ d ∈ deps u, d ∈ L) :
    ∀ x y, x ∈ L → Relation.ReflTransGen (edgeOf deps) x y → y ∈ L := by
  intro x y hx h
  induction h with
  | refl => exact hx
  | tail _ hedge ih => exact hclosed _ ih _ hedge

theorem topOrd_no_cycle (deps : ℕ → List ℕ) :
    ∀ (L : List ℕ), TopOrd deps L →
      ∀ x ∈ L, ¬ Relation.TransGen (edgeOf deps) x x := by
  intro L
  induction L with
  | nil => intro _ x hx; cases hx
  | cons u rest ih =>
    intro hord x hx hcyc
    obtain ⟨hu, hrest⟩ := hord
    rcases List.mem_cons.mp hx with rfl | hx
    · -- a cycle at the head would re-enter the closed tail
      obtain ⟨z, hez, hzx⟩ := (Relation.TransGen.head'_iff).mp hcyc
      have hz : z ∈ rest := hu z hez
      have hxmem : x ∈ rest :=
        closed_reach deps rest (topOrd_closed deps rest hrest) z x hz hzx
      exact ih hrest x hxmem hcyc
    · exact ih hrest x hx hcyc

theorem checkGo_ok (deps : ℕ → List ℕ) (nm : ℕ → String) :
    ∀ (fuel : ℕ) (call : CCall) (check validated : List ℕ)
      (seq : List String) (v : List ℕ),
      TopOrd deps validated →
      checkGo deps nm fuel call check validated seq = .ok v →
      TopOrd deps v ∧ (∃ pre, v = pre ++ validated) ∧
      (match call with
       | .one e => e ∈ v
       | .many ds => ∀ d ∈ ds, d ∈ v) := by
  intro fuel
  induction fuel with
  | zero =>
    intro call check validated seq v _ h
    cases call <;> cases h
  | succ fuel ih =>
    intro call check validated seq v hord h
    cases call with
    | one e =>
      simp only [checkGo] at h
      split at h
      · next hval =>
        cases h
        exact ⟨hord, ⟨[], rfl⟩, hval⟩
      split at h
      · cases h
      · cases hrec : checkGo deps nm fuel (.many (deps e)) (e :: check)
            validated (seq ++ [nm e]) with
        | error err =>
          rw [hrec] at h
          cases h
        | ok v1 =>
          rw [hrec] at h
          cases h
          obtain ⟨hord1, ⟨pre, hpre⟩, hds⟩ := ih _ _ _ _ _ hord hrec
          exact ⟨⟨hds, hord1⟩, ⟨e :: pre, by rw [hpre]; rfl⟩,
            List.mem_cons_self _ _⟩
    | many ds =>
      cases ds with
      | nil =>
        cases h
        exact ⟨hord, ⟨[], rfl⟩, fun d hd => absurd hd (List.not_mem_nil d)⟩
      | cons d rest =>
        simp only [checkGo] at h
        cases hrec : checkGo deps nm fuel (.one d) check validated seq with
        | error err =>
          rw [hrec] at h
          cases h
        | ok v1 =>
          rw [hrec] at h
          obtain ⟨hord1, ⟨pre1, hpre1⟩, hd1⟩ := ih _ _ _ _ _ hord hrec
          obtain ⟨hord2, ⟨pre2, hpre2⟩, hds2⟩ := ih _ _ _ _ _ hord1 h
          refine ⟨hord2, ⟨pre2 ++ pre1, by rw [hpre2, hpre1]; simp⟩, ?_⟩
          intro x hx
          rcases List.mem_cons.mp hx with rfl | hx
          · rw [hpre2]
            exact List.mem_append_right _ hd1
          · exact hds2 x hx

end CircDeps

namespace CircDeps

end CircDeps

/-- **C4.** For every dependency graph (any graph closed over its node
list), the circular-dependency check of `Loader.load` raises a
`LoadError` of reason `CIRCULAR_DEPENDENCY` iff some element reachable
from the start lies on a cycle; and on the S5 graph X→Y→Z→X the raised
message reports exactly the chain "X -> Y -> Z -> X" obtained by
slicing the DFS path at the first occurrence of the revisited
element. -/
theorem circular_dependency_check_spec :
    (∀ (deps : ℕ → List ℕ) (nm : ℕ → String) (nodes : List ℕ) (s : ℕ),
      (∀ x ∈ nodes, ∀ d ∈ deps x, d ∈ nodes) → s ∈ nodes →
      ((∃ x, Relation.ReflTransGen (CircDeps.edgeOf deps) s x ∧
          Relation.TransGen (CircDeps.edgeOf deps) x x) ↔
        ∃ msg, CircDeps.checkCircularDeps deps nm nodes s =
          .error (.loadError ⟨.circularDependency, msg⟩))) ∧
    CircDeps.checkCircularDeps CircDeps.exDeps CircDeps.exNm [0, 1, 2, 3] 0 =
      .error (.loadError ⟨.circularDependency,
        "Circular dependency detected at element: X" ++
        "\nDependency chain: X -> Y -> Z -> X"⟩) := by
  constructor
  · intro deps nm nodes s hclosed hs
    constructor
    · rintro ⟨x, hsx, hcyc⟩
      cases hres : CircDeps.checkGo deps nm
          ((nodes.length + 1) * (CircDeps.maxDeg deps nodes + 2))
          (.one s) [] [] [] with
      | ok v =>
        exfalso
        obtain ⟨hord, -, hsv⟩ :=
          CircDeps.checkGo_ok deps nm _ (.one s) [] [] [] v trivial hres
        have hxv : x ∈ v :=
          CircDeps.closed_reach deps v
            (CircDeps.topOrd_closed deps v hord) s x hsv hsx
        exact CircDeps.topOrd_no_cycle deps v hord x hxv hcyc
      | error err =>
        rcases CircDeps.checkGo_error_form deps nm _ _ _ _ _ _ hres
            with rfl | ⟨msg, rfl⟩
        · exfalso
          refine CircDeps.checkGo_no_fuel_error deps nm nodes hclosed _
            (.one s) [] [] [] List.nodup_nil
            (fun c hc => absurd hc (List.not_mem_nil c)) ⟨hs, ?_⟩ hres
          simp only [List.length_nil, Nat.sub_zero]
          rw [Nat.add_mul, Nat.one_mul]
          exact Nat.add_le_add_left (by omega) _
        · exact ⟨msg, hres⟩
    · rintro ⟨msg, hres⟩
      exact CircDeps.checkGo_sound deps nm s _ (.one s) [] [] [] _
        (fun c hc => absurd hc (List.not_mem_nil c))
        ⟨trivial, Relation.ReflTransGen.refl⟩ hres
  · rfl

theorem circular_dependency_check_spec_witness :
    ∃ msg, CircDeps.checkCircularDeps CircDeps.exDeps CircDeps.exNm
      [0, 1, 2, 3] 0 = .error (.loadError ⟨.circularDependency, msg⟩) := by
  have e01 : CircDeps.edgeOf CircDeps.exDeps 0 1 := by
    unfold CircDeps.edgeOf; decide
  have e12 : CircDeps.edgeOf CircDeps.exDeps 1 2 := by
    unfold CircDeps.edgeOf; decide
  have e23 : CircDeps.edgeOf CircDeps.exDeps 2 3 := by
    unfold CircDeps.edgeOf; decide
  have e31 : CircDeps.edgeOf CircDeps.exDeps 3 1 := by
    unfold CircDeps.edgeOf; decide
  refine (circular_dependency_check_spec.1 CircDeps.exDeps CircDeps.exNm
    [0, 1, 2, 3] 0 ?_ (by decide)).mp ?_
  · intro x hx d hd
    fin_cases hx <;> simp_all [CircDeps.exDeps]
  · exact ⟨1, Relation.ReflTransGen.single e01,
      Relation.TransGen.head e12
        (Relation.TransGen.head e23 (Relation.TransGen.single e31))⟩
